import Mathlib

/-!
Verification of the Misaka edge server (request routing, middleware composition,
static file delivery, reverse proxy, upgradable response), shallowly embedded
from the TypeScript source.  Character-level string operations are modelled over
`List Char` so that all definitions are executable.
-/

namespace Misaka

/-- Split a character list on every occurrence of the separator `c`, mirroring
the JavaScript `String.prototype.split` with a single-character separator. -/
def splitOnChar (c : Char) : List Char → List (List Char)
  | [] => [[]]
  | x :: xs =>
    let r := splitOnChar c xs
    if x = c then [] :: r
    else
      match r with
      | [] => [[x]]
      | h :: t => (x :: h) :: t

/-- Split at the first occurrence of `c`: returns the part before and after it. -/
def splitFirst (c : Char) : List Char → Option (List Char × List Char)
  | [] => none
  | x :: xs =>
    if x = c then some ([], xs)
    else (splitFirst c xs).map (fun p => (x :: p.1, p.2))

/-- JavaScript `String.prototype.startsWith`, over the underlying characters. -/
def jsStartsWith (s pre : String) : Bool := pre.data.isPrefixOf s.data

/-- JavaScript `String.prototype.endsWith`, over the underlying characters. -/
def jsEndsWith (s suf : String) : Bool := suf.data.isSuffixOf s.data

/-! ## Host patterns (src/modules/router/router.ts)

A site is `string | string[] | RegExp` (`SiteLike`).  A native regular
expression object is modelled as its compiled test function. -/

/-- Closed variant of the TypeScript `SiteLike` union: exact string, list of
strings, or compiled regular expression (modelled by its test function). -/
inductive SiteLike where
  | str (s : String)
  | list (l : List String)
  | regex (test : String → Bool)

/-- Embedding of `Util.strArray` (util.ts lines 67-72): a string containing a
comma is split on commas into an array, otherwise it is returned unchanged. -/
def strArray (s : String) : String ⊕ List String :=
  if s.data.contains ',' then .inr ((splitOnChar ',' s.data).map String.mk)
  else .inl s

/-- Embedding of the regex-literal extraction in `Router.parseSiteConfig`
(router.ts line 116): the ECMAScript regex `^\/(.*)\/(.*)$` applied to the host
key.  With greedy groups, group 1 is the text between the leading slash and the
last slash, group 2 the trailing flags. -/
def execRegexLiteral (s : String) : Option (String × String) :=
  match s.data with
  | '/' :: rest =>
    match splitFirst '/' rest.reverse with
    | some (flagsRev, bodyRev) => some (String.mk bodyRev.reverse, String.mk flagsRev.reverse)
    | none => none
  | _ => none

/-- Registration of one host key, combining `Router.use` (router.ts line 96,
which applies `Util.strArray` first) with the regex-literal handling of
`Router.parseSiteConfig` (router.ts lines 115-119).  `compile` stands for the
JavaScript `RegExp` constructor, producing a test function from body and
flags. -/
def parseSiteKey (compile : String → String → (String → Bool)) (s : String) :
    Except String SiteLike :=
  match strArray s with
  | .inr l => .ok (.list l)
  | .inl t =>
    if jsStartsWith t "/" then
      match execRegexLiteral t with
      | some (body, flags) =>
        if body = "" then .error "Invalid regular expression path."
        else .ok (.regex (compile body flags))
      | none => .error "Invalid regular expression path."
    else .ok (.str t)

/-- Embedding of `SiteRouter.match` (router.ts lines 211-222): the wildcard
string matches everything, a list matches by membership, a regex by test, and
any other string by strict equality. -/
def matchHost (pattern : SiteLike) (hostname : String) : Bool :=
  match pattern with
  | .str s => if s = "*" then true else s = hostname
  | .list l => l.contains hostname
  | .regex test => test hostname

/-- The slice of the Koa context that `SiteRouter.process` touches. -/
structure SiteCtx where
  hostname : String
  site : Option SiteLike

/-- Embedding of `SiteRouter.process` (router.ts lines 229-238): iterate the
registered `(pattern, path router)` entries in insertion order; on the first
pattern matching the IDN-unicode hostname, record the pattern as `ctx.site` and
delegate to that path router; with no match, fall through to the outer
continuation (modelled by `none`).  `domainToUnicode` stands for Node's
`url.domainToUnicode`. -/
def siteProcess {β : Type} (sites : List (SiteLike × β)) (domainToUnicode : String → String)
    (ctx : SiteCtx) : Option (SiteCtx × β) :=
  match sites with
  | [] => none
  | (site, pathRouter) :: rest =>
    if matchHost site (domainToUnicode ctx.hostname) then
      some ({ ctx with site := some site }, pathRouter)
    else siteProcess rest domainToUnicode ctx

/-- C3: the site router delegates to the path router of the first pattern in
insertion order that matches the request's IDN-unicode hostname, records that
pattern into the context as `site`, and consults no later entry (the result does
not depend on the entries after the first match); if no pattern matches, it
invokes the outer continuation. -/
theorem siteRouter_first_match_wins {β : Type} (idn : String → String)
    (ctx : SiteCtx) (pre post : List (SiteLike × β)) (p : SiteLike) (r : β)
    (hpre : ∀ e ∈ pre, matchHost e.1 (idn ctx.hostname) = false)
    (hp : matchHost p (idn ctx.hostname) = true) :
    siteProcess (pre ++ (p, r) :: post) idn ctx = some ({ ctx with site := some p }, r) ∧
    (∀ sites : List (SiteLike × β),
      (∀ e ∈ sites, matchHost e.1 (idn ctx.hostname) = false) →
      siteProcess sites idn ctx = none) := by
  constructor
  · induction pre with
    | nil => simp [siteProcess, hp]
    | cons e rest ih =>
      have he : matchHost e.1 (idn ctx.hostname) = false := hpre e (by simp)
      have ihh := ih (fun x hx => hpre x (by simp [hx]))
      cases e with
      | mk pat router => simpa [siteProcess, he] using ihh
  · intro sites hall
    induction sites with
    | nil => rfl
    | cons e rest ih =>
      have he : matchHost e.1 (idn ctx.hostname) = false := hall e (by simp)
      cases e with
      | mk pat router =>
        simpa [siteProcess, he] using ih (fun x hx => hall x (by simp [hx]))

/-- Concrete run of C3: the hostname matches the second entry (a list pattern);
the result is that entry's router with the pattern recorded, ignoring the later
wildcard. -/
theorem siteRouter_first_match_wins_witness :
    siteProcess
        [(SiteLike.str "a.com", 1), (SiteLike.list ["b.com", "c.com"], 2), (SiteLike.str "*", 3)]
        id ⟨"b.com", none⟩ =
      some (⟨"b.com", some (SiteLike.list ["b.com", "c.com"])⟩, 2) :=
  (siteRouter_first_match_wins id ⟨"b.com", none⟩ [(SiteLike.str "a.com", 1)]
    [(SiteLike.str "*", 3)] (SiteLike.list ["b.com", "c.com"]) 2
    (by intro e he; simp at he; subst he; decide) (by decide)).1

/-- C10: a routes host key containing a comma is split on commas and registered
as a list pattern, which matches exactly when the hostname is one of the
comma-separated items; a host key without a comma that is not wrapped in slashes
is registered as an exact-string pattern. -/
theorem strArray_comma_list_pattern (s hostname : String)
    (compile : String → String → (String → Bool)) :
    (s.data.contains ',' = true →
      parseSiteKey compile s = .ok (.list ((splitOnChar ',' s.data).map String.mk)) ∧
      (matchHost (.list ((splitOnChar ',' s.data).map String.mk)) hostname = true ↔
        hostname ∈ (splitOnChar ',' s.data).map String.mk)) ∧
    (s.data.contains ',' = false → jsStartsWith s "/" = false →
      parseSiteKey compile s = .ok (.str s)) := by
  constructor
  · intro hc
    have hm : ',' ∈ s.data := List.mem_of_elem_eq_true hc
    refine ⟨by simp [parseSiteKey, strArray, hm], ?_⟩
    constructor
    · intro h
      simpa [matchHost] using h
    · intro h
      simpa [matchHost] using h
  · intro hc hs
    have hc' : s.data.elem ',' = false := hc
    have hm : ¬ ',' ∈ s.data := fun h => by
      rw [List.elem_eq_true_of_mem h] at hc'; cases hc'
    simp [parseSiteKey, strArray, hm, hs]

/-- Concrete run of C10: the key "a.com,b.com" registers as the list pattern
["a.com", "b.com"], which matches hostname "b.com". -/
theorem strArray_comma_list_pattern_witness :
    parseSiteKey (fun _ _ _ => false) "a.com,b.com" = .ok (.list ["a.com", "b.com"]) ∧
    matchHost (.list ["a.com", "b.com"]) "b.com" = true := by
  have h := (strArray_comma_list_pattern "a.com,b.com" "b.com" (fun _ _ _ => false)).1 (by decide)
  have e : (splitOnChar ',' ("a.com,b.com").data).map String.mk = ["a.com", "b.com"] := by decide
  rw [e] at h
  exact ⟨h.1, h.2.mpr (by decide)⟩

/-! ## Middleware chain composer (src/modules/util/util.ts, `Util.compose`,
lines 78-93)

A middleware in the chain DSL is described by how many times it calls its
continuation; the composed middleware's per-invocation state is the mutable
`index` variable together with an execution trace (entry counts per middleware
position and the number of calls of the outermost continuation).  Errors thrown
by `dispatch` propagate through every `await`; they are carried alongside the
state so that the trace survives an abort. -/

/-- The message of the error thrown by `Util.compose` on a double `next`. -/
def chainErrMsg : String := "next() called multiple times"

/-- Per-invocation state of the composed middleware: the deepest index entered
(`let index = -1`), how many times each middleware position was invoked, and
how many times the outer continuation `next` was invoked. -/
structure ChainState where
  index : Int
  entered : List Nat
  outerNextCalls : Nat
deriving DecidableEq, Repr

/-- Increment the entry counter at position `i` (out-of-range is a no-op). -/
def bumpAt : List Nat → Nat → List Nat
  | [], _ => []
  | c :: cs, 0 => (c + 1) :: cs
  | c :: cs, j + 1 => c :: bumpAt cs j

/-- Result of a run: final state plus the propagated error, if any. -/
abbrev ChainOut := ChainState × Option String

mutual
/-- Embedding of `dispatch(i)` in `Util.compose` (util.ts lines 81-90): fail if
the index did not advance, record the new index, then either enter middleware
`i` (which calls its continuation `dispatch(i+1)` as many times as its DSL
count says), call the outer `next` when `i` equals the length, or do nothing.
The argument `rest` is `middlewares.drop i`, so `middlewares[i]` is its head;
passing the suffix keeps the recursion structural. -/
def dispatchGo (mws rest : List Nat) (i : Nat) (s : ChainState) : ChainOut :=
  if (i : Int) ≤ s.index then (s, some chainErrMsg)
  else
    let s1 : ChainState := { s with index := (i : Int) }
    match rest with
    | route :: rest' =>
      callNextsGo mws rest' i route { s1 with entered := bumpAt s1.entered i }
    | [] =>
      if i = mws.length then ({ s1 with outerNextCalls := s1.outerNextCalls + 1 }, none)
      else (s1, none)
termination_by ((rest.length + 1, 0) : Nat ×ₗ Nat)

/-- The body of middleware `i` in the DSL: `k` sequential calls of its
continuation `dispatch(i + 1)`, aborting when a call throws (`rest'` is
`middlewares.drop (i + 1)`). -/
def callNextsGo (mws rest' : List Nat) (i k : Nat) (s : ChainState) : ChainOut :=
  match k with
  | 0 => (s, none)
  | k + 1 =>
    match dispatchGo mws rest' (i + 1) s with
    | (s', none) => callNextsGo mws rest' i k s'
    | (s', some e) => (s', some e)
termination_by ((rest'.length + 1, k + 1) : Nat ×ₗ Nat)
end

/-- One invocation of the middleware composed by `Util.compose`: a fresh
`index = -1`, an empty trace, then `dispatch(0)`. -/
def runCompose (mws : List Nat) : ChainOut :=
  dispatchGo mws mws 0 ⟨-1, List.replicate mws.length 0, 0⟩

/-- Entry counters after a bump: position `i` is incremented when in range,
everything else is untouched. -/
theorem bumpAt_getD (l : List Nat) (i j : Nat) :
    (bumpAt l i).getD j 0 =
      if i = j ∧ j < l.length then l.getD j 0 + 1 else l.getD j 0 := by
  induction l generalizing i j with
  | nil => simp [bumpAt]
  | cons c cs ih =>
    cases i with
    | zero =>
      cases j with
      | zero => simp [bumpAt]
      | succ j => simp [bumpAt]
    | succ i =>
      cases j with
      | zero => simp [bumpAt]
      | succ j =>
        simpa [bumpAt, Nat.succ_lt_succ_iff] using ih i j

/-- The `index` of `Util.compose` never decreases, a successful `dispatch(i)`
leaves it at `i` or deeper, and the only error ever produced carries the
double-`next` message. -/
theorem chain_index_mono (mws rest : List Nat) :
    (∀ i s, s.index ≤ (dispatchGo mws rest i s).1.index ∧
      ((dispatchGo mws rest i s).2 = none → (i : Int) ≤ (dispatchGo mws rest i s).1.index) ∧
      (∀ e, (dispatchGo mws rest i s).2 = some e → e = chainErrMsg)) ∧
    (∀ k i s, s.index ≤ (callNextsGo mws rest i k s).1.index ∧
      (∀ e, (callNextsGo mws rest i k s).2 = some e → e = chainErrMsg)) := by
  induction rest with
  | nil =>
    have hd : ∀ i s, s.index ≤ (dispatchGo mws [] i s).1.index ∧
        ((dispatchGo mws [] i s).2 = none → (i : Int) ≤ (dispatchGo mws [] i s).1.index) ∧
        (∀ e, (dispatchGo mws [] i s).2 = some e → e = chainErrMsg) := by
      intro i s
      rw [dispatchGo]
      by_cases hle : (i : Int) ≤ s.index
      · simp only [if_pos hle]
        exact ⟨le_refl _, by simp, fun e he => by simpa using he.symm⟩
      · simp only [if_neg hle]
        by_cases hlen : i = mws.length <;>
          simp [hlen, le_of_lt (lt_of_not_le hle)] <;> omega
    refine ⟨hd, ?_⟩
    intro k
    induction k with
    | zero => intro i s; simp [callNextsGo]
    | succ k ihk =>
      intro i s
      rw [callNextsGo]
      rcases h1 : dispatchGo mws [] (i + 1) s with ⟨s1, e1⟩
      have hds := hd (i + 1) s
      rw [h1] at hds
      cases e1 with
      | none =>
        simp only []
        exact ⟨le_trans hds.1 (ihk i s1).1, (ihk i s1).2⟩
      | some e =>
        simp only []
        exact ⟨hds.1, fun e' he' => hds.2.2 e' he'⟩
  | cons route rest' ih =>
    have hd : ∀ i s, s.index ≤ (dispatchGo mws (route :: rest') i s).1.index ∧
        ((dispatchGo mws (route :: rest') i s).2 = none →
          (i : Int) ≤ (dispatchGo mws (route :: rest') i s).1.index) ∧
        (∀ e, (dispatchGo mws (route :: rest') i s).2 = some e → e = chainErrMsg) := by
      intro i s
      rw [dispatchGo]
      by_cases hle : (i : Int) ≤ s.index
      · simp only [if_pos hle]
        exact ⟨le_refl _, by simp, fun e he => by simpa using he.symm⟩
      · simp only [if_neg hle]
        have hc := ih.2 route i
          ⟨(i : Int), bumpAt s.entered i, s.outerNextCalls⟩
        exact ⟨le_trans (le_of_lt (lt_of_not_le hle)) hc.1, fun _ => hc.1, hc.2⟩
    refine ⟨hd, ?_⟩
    intro k
    induction k with
    | zero => intro i s; simp [callNextsGo]
    | succ k ihk =>
      intro i s
      rw [callNextsGo]
      rcases h1 : dispatchGo mws (route :: rest') (i + 1) s with ⟨s1, e1⟩
      have hds := hd (i + 1) s
      rw [h1] at hds
      cases e1 with
      | none =>
        simp only []
        exact ⟨le_trans hds.1 (ihk i s1).1, (ihk i s1).2⟩
      | some e =>
        simp only []
        exact ⟨hds.1, fun e' he' => hds.2.2 e' he'⟩

/-- A frame that calls its continuation at least twice always aborts with the
double-`next` error: the first call pushes the index beyond `i`, so the second
call's index check fails. -/
theorem callNexts_twice_errs (mws rest : List Nat) (i k : Nat) (s : ChainState)
    (h2 : 2 ≤ k) : (callNextsGo mws rest i k s).2 = some chainErrMsg := by
  obtain ⟨k', rfl⟩ : ∃ k', k = k' + 1 + 1 := ⟨k - 2, by omega⟩
  rw [callNextsGo]
  rcases h1 : dispatchGo mws rest (i + 1) s with ⟨s1, e1⟩
  have hds := ((chain_index_mono mws rest).1 (i + 1) s)
  rw [h1] at hds
  cases e1 with
  | some e => simpa using hds.2.2 e rfl
  | none =>
    have hidx : ((i : Int) + 1) ≤ s1.index := by exact_mod_cast hds.2.1 rfl
    have herr : dispatchGo mws rest (i + 1) s1 = (s1, some chainErrMsg) := by
      rw [dispatchGo]
      rw [if_pos (by exact_mod_cast hidx)]
    simp only []
    rw [callNextsGo, herr]

/-- If every middleware before position `i₀` calls its continuation at least
once and middleware `i₀` calls it at least twice, `dispatch` started at or
before `i₀` aborts with the double-`next` error. -/
theorem dispatch_reaches_double (mws : List Nat) (i₀ k₀ : Nat)
    (hk : mws[i₀]? = some k₀) (h2 : 2 ≤ k₀)
    (hbef : ∀ j, j < i₀ → 1 ≤ (mws[j]?).getD 1) :
    ∀ rest i s, mws.drop i = rest → i ≤ i₀ → s.index < (i : Int) →
      (dispatchGo mws rest i s).2 = some chainErrMsg := by
  intro rest
  induction rest with
  | nil =>
    intro i s hdrop hi hs
    exfalso
    have hlen : mws.length ≤ i := List.drop_eq_nil_iff.mp hdrop
    have hi₀ : i₀ < mws.length := by
      by_contra hcon
      rw [List.getElem?_eq_none (by omega)] at hk
      cases hk
    omega
  | cons route rest' ih =>
    intro i s hdrop hi hs
    have hroute : mws[i]? = some route := by
      have h0 : (mws.drop i)[0]? = some route := by rw [hdrop]; simp
      simpa using h0
    have hdrop' : mws.drop (i + 1) = rest' := by
      have := congrArg List.tail hdrop
      simpa [List.tail_drop] using this
    rw [dispatchGo, if_neg (by omega)]
    simp only []
    by_cases hii : i = i₀
    · subst hii
      rw [hk] at hroute
      have hkk : k₀ = route := Option.some.inj hroute
      exact callNexts_twice_errs mws rest' i route _ (hkk ▸ h2)
    · have hlt : i < i₀ := lt_of_le_of_ne hi hii
      have h1 : 1 ≤ route := by
        have := hbef i hlt
        rwa [hroute, Option.getD_some] at this
      obtain ⟨r', rfl⟩ : ∃ r', route = r' + 1 := ⟨route - 1, by omega⟩
      rw [callNextsGo]
      rcases h1d : dispatchGo mws rest' (i + 1)
          ⟨(i : Int), bumpAt s.entered i, s.outerNextCalls⟩ with ⟨s1, e1⟩
      have hrec := ih (i + 1) ⟨(i : Int), bumpAt s.entered i, s.outerNextCalls⟩
        hdrop' (by omega) (by simp)
      rw [h1d] at hrec
      cases e1 with
      | none => cases hrec
      | some e => simpa using hrec

/-- Invariant on the execution trace: every middleware has been entered at most
once, and middlewares beyond the current index not at all. -/
def EntInv (s : ChainState) : Prop :=
  ∀ j : Nat, s.entered.getD j 0 ≤ 1 ∧ ((s.index < (j : Int)) → s.entered.getD j 0 = 0)

/-- Both chain interpreters preserve the single-entry invariant: no middleware
is ever entered a second time, however many times frames call `next`. -/
theorem chain_entered_inv (mws rest : List Nat) :
    (∀ i s, EntInv s → EntInv (dispatchGo mws rest i s).1) ∧
    (∀ k i s, EntInv s → EntInv (callNextsGo mws rest i k s).1) := by
  induction rest with
  | nil =>
    have hd : ∀ i s, EntInv s → EntInv (dispatchGo mws [] i s).1 := by
      intro i s hs
      rw [dispatchGo]
      by_cases hle : (i : Int) ≤ s.index
      · simpa [if_pos hle] using hs
      · have hlt : s.index < (i : Int) := lt_of_not_le hle
        simp only [if_neg hle]
        by_cases hlen : i = mws.length
        · simp only [if_pos hlen]
          intro j
          refine ⟨(hs j).1, fun hj => (hs j).2 (lt_trans hlt ?_)⟩
          exact hj
        · simp only [if_neg hlen]
          intro j
          refine ⟨(hs j).1, fun hj => (hs j).2 (lt_trans hlt ?_)⟩
          exact hj
    refine ⟨hd, ?_⟩
    intro k
    induction k with
    | zero => intro i s hs; simpa [callNextsGo] using hs
    | succ k ihk =>
      intro i s hs
      rw [callNextsGo]
      rcases h1 : dispatchGo mws [] (i + 1) s with ⟨s1, e1⟩
      have hds := hd (i + 1) s hs
      rw [h1] at hds
      cases e1 with
      | none => simpa using ihk i s1 hds
      | some e => simpa using hds
  | cons route rest' ih =>
    have hd : ∀ i s, EntInv s → EntInv (dispatchGo mws (route :: rest') i s).1 := by
      intro i s hs
      rw [dispatchGo]
      by_cases hle : (i : Int) ≤ s.index
      · simpa [if_pos hle] using hs
      · have hlt : s.index < (i : Int) := lt_of_not_le hle
        simp only [if_neg hle]
        have hinv : EntInv ⟨(i : Int), bumpAt s.entered i, s.outerNextCalls⟩ := by
          intro j
          have hb := bumpAt_getD s.entered i j
          constructor
          · show (bumpAt s.entered i).getD j 0 ≤ 1
            rw [hb]
            by_cases hij : i = j ∧ j < s.entered.length
            · rw [if_pos hij]
              have h0 : s.entered.getD j 0 = 0 := (hs j).2 (by rw [← hij.1]; exact hlt)
              omega
            · rw [if_neg hij]; exact (hs j).1
          · intro hj
            have hj' : (i : Int) < (j : Int) := hj
            show (bumpAt s.entered i).getD j 0 = 0
            rw [hb, if_neg (by rintro ⟨rfl, _⟩; exact lt_irrefl _ hj')]
            exact (hs j).2 (lt_trans hlt hj')
        exact ih.2 route i _ hinv
    refine ⟨hd, ?_⟩
    intro k
    induction k with
    | zero => intro i s hs; simpa [callNextsGo] using hs
    | succ k ihk =>
      intro i s hs
      rw [callNextsGo]
      rcases h1 : dispatchGo mws (route :: rest') (i + 1) s with ⟨s1, e1⟩
      have hds := hd (i + 1) s hs
      rw [h1] at hds
      cases e1 with
      | none => simpa using ihk i s1 hds
      | some e => simpa using hds

/-- C1: for every middleware stack composed by `Util.compose`, if a reachable
frame calls its continuation more than once, the composed middleware fails with
the error 'next() called multiple times', and no middleware position is entered
a second time during that invocation.  Each invocation runs on its own fresh
`index` (the initial state in `runCompose`), so concurrent invocations are
independent by construction. -/
theorem compose_single_shot (mws : List Nat) (i k : Nat)
    (hk : mws[i]? = some k) (h2 : 2 ≤ k)
    (hbef : ∀ j, j < i → 1 ≤ (mws[j]?).getD 1) :
    (runCompose mws).2 = some "next() called multiple times" ∧
    ∀ j, ((runCompose mws).1.entered).getD j 0 ≤ 1 := by
  constructor
  · exact dispatch_reaches_double mws i k hk h2 hbef mws 0 _ (by simp) (Nat.zero_le _)
      (by norm_num)
  · intro j
    have hrep : ∀ (n j : Nat), (List.replicate n (0 : Nat)).getD j 0 = 0 := by
      intro n
      induction n with
      | zero => intro j; simp
      | succ n ih => intro j; cases j <;> simp [List.replicate_succ, ih]
    have hinv : EntInv ⟨-1, List.replicate mws.length 0, 0⟩ := by
      intro j
      exact ⟨by simp [hrep], fun _ => hrep _ _⟩
    exact ((chain_entered_inv mws mws).1 0 _ hinv j).1

/-- Concrete run of C1: in the stack [1, 2] the second middleware calls `next`
twice; the composed run aborts with the double-`next` error and no position is
entered twice. -/
theorem compose_single_shot_witness :
    (runCompose [1, 2]).2 = some "next() called multiple times" ∧
    ((runCompose [1, 2]).1.entered).getD 1 0 ≤ 1 :=
  ⟨(compose_single_shot [1, 2] 1 2 (by decide) (by decide) (by decide)).1,
   (compose_single_shot [1, 2] 1 2 (by decide) (by decide) (by decide)).2 1⟩

/-! ## Upgradable response (src/src/lib/stat.ts, `UpgradableResponse`)

The response object either serialises an HTTP/1.1 response onto its raw socket
or relinquishes the socket to a WebSocket handshake.  Writes to the socket are
collected in `wire`; the WebSocket close code, when one is sent, in
`wsCloseCode`. -/

/-- State of an `UpgradableResponse` (stat.ts lines 49-85). -/
structure UpgradableResponse where
  upgraded : Bool
  headersSent : Bool
  headers : List (String × String)
  statusCode : Nat
  statusMessage : String
  wire : List String
  socketEnded : Bool
  wsCloseCode : Option Nat
  websocketOpen : Bool
deriving DecidableEq, Repr

/-- Assignment into a JavaScript object field: replace an existing key or
append a new one. -/
def objSet (hs : List (String × String)) (n v : String) : List (String × String) :=
  if hs.any (fun p => p.1 = n) then hs.map (fun p => if p.1 = n then (n, v) else p)
  else hs ++ [(n, v)]

/-- Deletion of a JavaScript object field. -/
def objRemove (hs : List (String × String)) (n : String) : List (String × String) :=
  hs.filter (fun p => !(p.1 == n))

/-- Modelled from the external http-status-codes package: the reason phrase of
a status code.  Only the serialised status line depends on it. -/
def getStatusText (code : Nat) : String :=
  if code = 200 then "OK"
  else if code = 404 then "Not Found"
  else if code = 500 then "Internal Server Error"
  else "Unknown"

/-- The HTTP/1.1 status line written by `writeHead` (stat.ts line 147). -/
def statusLine (code : Nat) (text : String) : String :=
  "HTTP/1.1 " ++ toString code ++ " " ++ text ++ "\r\n"

/-- The header lines written by `writeHead` (stat.ts lines 148-150); an absent
headers object writes nothing. -/
def headerLines (hs : Option (List (String × String))) : List String :=
  (hs.getD []).map (fun p => p.1 ++ ": " ++ p.2 ++ "\r\n")

/-- Embedding of `UpgradableResponse.writeHead` (stat.ts lines 136-155).  An
absent `message` stands for a non-string one: the JavaScript overload then
shifts the headers argument into `message`'s place, discarding the model's
`headers`.  In the non-upgraded state the status line, header lines and a blank
line go to the socket; in every non-error case `headersSent` becomes true.
(The branch rejecting an array-shaped headers argument is unrepresentable here,
headers being typed as an object.) -/
def writeHead (r : UpgradableResponse) (code : Nat) (message : Option String)
    (headers : Option (List (String × String))) : Except String UpgradableResponse :=
  if r.headersSent then .error "Headers have already been sent"
  else if headers = none ∧ (message = none ∨ message = some "") then
    .error "One of headers or message must be provided"
  else
    let headers := if message = none then none else headers
    let message := message.getD ""
    let text := if message = "" then getStatusText code else message
    let r1 :=
      if r.upgraded then r
      else { r with wire := r.wire ++ statusLine code text :: headerLines headers ++ ["\r\n"] }
    .ok { r1 with headersSent := true, statusCode := r1.statusCode }

/-- Embedding of `UpgradableResponse.setHeader` (stat.ts lines 130-134). -/
def setHeader (r : UpgradableResponse) (n v : String) : Except String UpgradableResponse :=
  if r.headersSent then .error "Headers have already been sent"
  else .ok { r with headers := objSet r.headers n v }

/-- Embedding of `UpgradableResponse.removeHeader` (stat.ts lines 124-128). -/
def removeHeader (r : UpgradableResponse) (n : String) : Except String UpgradableResponse :=
  if r.headersSent then .error "Headers have already been sent"
  else .ok { r with headers := objRemove r.headers n }

/-- Embedding of `UpgradableResponse.upgrade` (stat.ts lines 162-174): flips to
the upgraded state and hands the socket to a WebSocket-server handshake (a
successful handshake installs the client WebSocket). -/
def upgrade (r : UpgradableResponse) : Except String UpgradableResponse :=
  if r.headersSent then .error "Headers have already been sent"
  else .ok { r with upgraded := true, websocketOpen := true }

/-- Embedding of `UpgradableResponse._write` (stat.ts lines 87-104): commit the
headers if not yet sent, then either close the owned WebSocket (on stream end
in the upgraded state, code 1011 for status 500 and 1000 otherwise), end the
socket, or append the chunk to the socket.  `none` stands for the null chunk
written on stream finish. -/
def uwrite (r : UpgradableResponse) (chunk : Option String) :
    Except String UpgradableResponse :=
  match (if r.headersSent then .ok r
    else writeHead r r.statusCode (some r.statusMessage) (some r.headers) :
      Except String UpgradableResponse) with
  | .error e => .error e
  | .ok r =>
    if r.upgraded then
      if r.websocketOpen ∧ chunk = none then
        .ok { r with wsCloseCode := some (if r.statusCode = 500 then 1011 else 1000) }
      else
        .ok r
    else
      match chunk with
      | none => .ok { r with socketEnded := true }
      | some c => .ok { r with wire := r.wire ++ [c] }

/-- The operations a response object admits after construction. -/
inductive ROp where
  | setHeader (n v : String)
  | removeHeader (n : String)
  | writeHead (code : Nat) (message : Option String) (headers : Option (List (String × String)))
  | upgrade
  | write (chunk : Option String)

/-- One method call on an `UpgradableResponse`. -/
def rstep (r : UpgradableResponse) : ROp → Except String UpgradableResponse
  | .setHeader n v => setHeader r n v
  | .removeHeader n => removeHeader r n
  | .writeHead code message headers => writeHead r code message headers
  | .upgrade => upgrade r
  | .write chunk => uwrite r chunk

/-- A successful `writeHead` always leaves `headersSent` true. -/
theorem writeHead_ok_headersSent (r : UpgradableResponse) (code : Nat)
    (message : Option String) (headers : Option (List (String × String)))
    (r' : UpgradableResponse) (h : writeHead r code message headers = .ok r') :
    r'.headersSent = true := by
  unfold writeHead at h
  split at h
  · cases h
  · split at h
    · cases h
    · cases h
      rfl

/-- C5: once headers are committed (first body write, which serialises the
status line and headers, or explicit `writeHead`), `headersSent` is true and
never reverts under any method, and every later `setHeader`, `removeHeader`,
`writeHead` or `upgrade` call fails with 'Headers have already been sent'. -/
theorem headers_sent_monotone (r : UpgradableResponse) :
    (∀ op r', rstep r op = .ok r' → r.headersSent = true → r'.headersSent = true) ∧
    (∀ chunk r', uwrite r chunk = .ok r' → r'.headersSent = true) ∧
    (∀ code message headers r', writeHead r code message headers = .ok r' →
      r'.headersSent = true) ∧
    (r.headersSent = true →
      (∀ n v, setHeader r n v = .error "Headers have already been sent") ∧
      (∀ n, removeHeader r n = .error "Headers have already been sent") ∧
      (∀ code message headers,
        writeHead r code message headers = .error "Headers have already been sent") ∧
      upgrade r = .error "Headers have already been sent") := by
  have hw : ∀ chunk r', uwrite r chunk = .ok r' → r'.headersSent = true := by
    intro chunk r' h
    unfold uwrite at h
    by_cases hs : r.headersSent = true
    · rw [if_pos hs] at h
      simp only [] at h
      split at h
      · split at h <;> (cases h; exact hs)
      · split at h <;> (cases h; exact hs)
    · rw [if_neg hs] at h
      rcases hwh : writeHead r r.statusCode (some r.statusMessage) (some r.headers) with e | r1
      · rw [hwh] at h; cases h
      · rw [hwh] at h
        have h1 := writeHead_ok_headersSent _ _ _ _ _ hwh
        simp only [] at h
        split at h
        · split at h <;> (cases h; exact h1)
        · split at h <;> (cases h; exact h1)
  refine ⟨?_, hw, fun code message headers r' h => writeHead_ok_headersSent _ _ _ _ _ h, ?_⟩
  · intro op r' h hs
    cases op with
    | setHeader n v =>
      simp only [rstep] at h
      unfold setHeader at h; rw [if_pos hs] at h; cases h
    | removeHeader n =>
      simp only [rstep] at h
      unfold removeHeader at h; rw [if_pos hs] at h; cases h
    | writeHead code message headers =>
      simp only [rstep] at h
      unfold writeHead at h; rw [if_pos hs] at h; cases h
    | upgrade =>
      simp only [rstep] at h
      unfold upgrade at h; rw [if_pos hs] at h; cases h
    | write chunk =>
      simp only [rstep] at h
      exact hw chunk r' h
  · intro hs
    exact ⟨fun n v => by unfold setHeader; rw [if_pos hs],
      fun n => by unfold removeHeader; rw [if_pos hs],
      fun code message headers => by unfold writeHead; rw [if_pos hs],
      by unfold upgrade; rw [if_pos hs]⟩

/-- Concrete run of C5: on a response whose headers are committed, `setHeader`
and `upgrade` fail with the headers-already-sent error. -/
theorem headers_sent_monotone_witness :
    setHeader ⟨false, true, [], 200, "", [], false, none, false⟩ "X-A" "1" =
      .error "Headers have already been sent" ∧
    upgrade ⟨false, true, [], 200, "", [], false, none, false⟩ =
      .error "Headers have already been sent" :=
  let h := (headers_sent_monotone ⟨false, true, [], 200, "", [], false, none, false⟩).2.2.2 rfl
  ⟨h.1 "X-A" "1", h.2.2.2⟩

/-! ## Path normalisation and rewrite middleware

Node's `path.posix.normalize` and JavaScript's `String.prototype.replace`
(first occurrence, string pattern) are embedded over character lists; the
rewrite middleware of `PathRouter.addRewrite` is built from them. -/

/-- One step of Node's posix `normalizeString`: fold a path segment into the
accumulator (kept reversed).  Empty and `.` segments vanish; `..` pops the last
real segment, and climbs above the start only for relative paths
(`allowAbove`). -/
def normStep (allowAbove : Bool) (acc : List (List Char)) (seg : List Char) :
    List (List Char) :=
  if seg = [] ∨ seg = ['.'] then acc
  else if seg = ['.', '.'] then
    match acc with
    | [] => if allowAbove then [['.', '.']] else []
    | last :: rest => if last = ['.', '.'] then seg :: acc else rest
  else seg :: acc

/-- Node `path.posix.normalize` over the characters of a path: resolve `.` and
`..`, collapse repeated separators, keep a trailing separator, return `.` (or
`./`, or `/`) when everything cancels. -/
def normalizeChars (p : List Char) : List Char :=
  if p = [] then ['.']
  else
    let isAbs := p.head? == some '/'
    let trailing := p.getLast? == some '/'
    let segs := ((splitOnChar '/' p).foldl (normStep !isAbs) []).reverse
    let core := List.intercalate ['/'] segs
    if core = [] then
      if isAbs then ['/'] else if trailing then ['.', '/'] else ['.']
    else
      let core := if trailing then core ++ ['/'] else core
      if isAbs then '/' :: core else core

/-- Node `path.posix.normalize` (the `pathNormalize` import in router.ts). -/
def pathNormalize (p : String) : String := String.mk (normalizeChars p.data)

/-- ECMAScript GetSubstitution for a string pattern: expand dollar-dollar,
dollar-ampersand (the match), dollar-backquote (text before the match) and
dollar-quote (text after the match) in the replacement; with no capture groups,
a dollar followed by anything else passes through literally. -/
def expandRepl (matched pre suf : List Char) : List Char → List Char
  | [] => []
  | '$' :: c :: rest =>
    if c = '$' then '$' :: expandRepl matched pre suf rest
    else if c = '&' then matched ++ expandRepl matched pre suf rest
    else if c = Char.ofNat 96 then pre ++ expandRepl matched pre suf rest
    else if c = Char.ofNat 39 then suf ++ expandRepl matched pre suf rest
    else '$' :: c :: expandRepl matched pre suf rest
  | c :: rest => c :: expandRepl matched pre suf rest

/-- First occurrence of `pat`: `some (pre, suf)` decomposes the list as
`pre ++ pat ++ suf` with `pre` shortest. -/
def splitFirstSub (pat : List Char) : List Char → Option (List Char × List Char)
  | [] => if pat = [] then some ([], []) else none
  | c :: cs =>
    if pat.isPrefixOf (c :: cs) then some ([], (c :: cs).drop pat.length)
    else (splitFirstSub pat cs).map (fun p => (c :: p.1, p.2))

/-- JavaScript `String.prototype.replace` with a string pattern: replace the
first occurrence, expanding dollar patterns in the replacement; no occurrence
leaves the string unchanged. -/
def jsReplaceFirst (s pat repl : String) : String :=
  match splitFirstSub pat.data s.data with
  | none => s
  | some (pre, suf) => String.mk (pre ++ expandRepl pat.data pre suf repl.data ++ suf)

/-- The slice of the Koa context the rewrite middleware touches. -/
structure RwCtx where
  path : String
  log : Bool
  logs : List String
deriving DecidableEq, Repr

/-- Embedding of the middleware installed by `PathRouter.addRewrite`
(router.ts lines 319-328): replace the first occurrence of `src` in `ctx.path`
with `dest`, normalise the result into `ctx.path`, log when enabled, and call
`next` once.  Nothing restores `ctx.path` after `next` returns. -/
def rewriteMiddleware (src dest : String) (ctx : RwCtx) (next : RwCtx → RwCtx) : RwCtx :=
  let newPath := pathNormalize (jsReplaceFirst ctx.path src dest)
  next { ctx with
    path := newPath
    logs := if ctx.log then ctx.logs ++ ["Rewritten to=" ++ newPath] else ctx.logs }

/-- C4 as stated is false on the code: with rule src `/old`, dest `/new` and
request path `/old/a`, after the stack falls through (identity continuation)
the caller observes `/new/a`, not the pre-rewrite value `/old/a` — the rewrite
middleware never restores `ctx.path`. -/
theorem rewrite_restore_counterexample :
    ¬ ((rewriteMiddleware "/old" "/new" ⟨"/old/a", false, []⟩ id).path = "/old/a") := by
  decide

/-- C4 amended: middleware downstream of the rewrite observes `ctx.path` equal
to the normalised result of replacing the first occurrence of src with dest
(the continuation is invoked exactly once, with exactly that path); and when
the stack falls through back to the caller, `ctx.path` still equals the
rewritten value — it is not restored to its pre-rewrite value. -/
theorem rewrite_downstream_no_restore (src dest : String) (ctx : RwCtx)
    (next : RwCtx → RwCtx) (hnext : ∀ c, (next c).path = c.path) :
    (∃ ctx1, rewriteMiddleware src dest ctx next = next ctx1 ∧
      ctx1.path = pathNormalize (jsReplaceFirst ctx.path src dest)) ∧
    (rewriteMiddleware src dest ctx next).path =
      pathNormalize (jsReplaceFirst ctx.path src dest) :=
  ⟨⟨_, rfl, rfl⟩, hnext _⟩

/-- Concrete run of C4 (amended): rewriting `/app/old` to `/new` is still
visible after fall-through. -/
theorem rewrite_downstream_no_restore_witness :
    (rewriteMiddleware "/app/old" "/new" ⟨"/app/old", true, []⟩ id).path = "/new" := by
  have h := rewrite_downstream_no_restore "/app/old" "/new" ⟨"/app/old", true, []⟩ id
    (fun c => rfl)
  rw [h.2]
  decide

/-! ## Static file delivery (src/unnamed/part_003, `send`; src/unnamed/part_001,
`serve`)

The filesystem is a model: an existence test (`fsa.access`) and a stat call
(`fsa.stat`, failing with a Node error-code string).  The response body is the
argument pair handed to `fs.createReadStream`: the opened path and the optional
inclusive byte range. -/

/-- Node `path.posix.resolve` of a single argument against a working
directory: join when relative, then collapse `.`, `..` and repeated
separators, never climbing above the root, without a trailing separator. -/
def posixResolve (cwd p : String) : String :=
  let full := if jsStartsWith p "/" then p else cwd ++ "/" ++ p
  let segs := ((splitOnChar '/' full.data).foldl (normStep false) []).reverse
  String.mk ('/' :: List.intercalate ['/'] segs)

/-- The stat result fields `send` consumes. -/
structure Stats where
  size : Nat
  isDirectory : Bool
  mtimeUTC : String
deriving DecidableEq, Repr

/-- Filesystem model: `fexists` is the `exists` helper (part_003 lines 8-15,
`fsa.access` succeeding), `statf` is `fsa.stat`, failing with the Node error
code string. -/
structure FSModel where
  fexists : String → Bool
  statf : String → Except String Stats

/-- The `send` options (part_003 lines 19-44), with JavaScript absence already
resolved: `index` is `none` for `false`/undefined (`some ""` is falsy and acts
like none wherever the source tests truthiness), `extensions` is `none` unless
an array, `maxage` merges `maxage || maxAge || 0`, and `gzip`, `brotli`,
`format` hold the `!== false` results. -/
structure SendOptions where
  absolute : Bool := false
  maxage : Nat := 0
  immutable : Bool := false
  hidden : Bool := false
  root : String := ""
  index : Option String := none
  gzip : Bool := true
  brotli : Bool := true
  format : Bool := true
  extensions : Option (List String) := none
deriving DecidableEq, Repr

/-- JavaScript truthiness of an optional string (absent and empty are falsy). -/
def jsTruthyStr (o : Option String) : Bool :=
  match o with
  | some s => !(s == "")
  | none => false

/-- The slice of the Koa context that `send` reads and writes: the two
`acceptsEncodings` outcomes, the request Range header, and the response status,
type, headers and body.  The body records the `fs.createReadStream` arguments:
path and optional inclusive `{start, end}` range. -/
structure SendCtx where
  acceptBr : Bool
  acceptGzip : Bool
  rangeHeader : Option String
  status : Nat
  ctype : String
  headers : List (String × String)
  body : Option (String × Option (Int × Int))
deriving DecidableEq, Repr

/-- Koa `ctx.response.get` for the header names `send` probes (the names used
are in canonical form, so exact lookup suffices); unset reads as the falsy
empty string. -/
def respGet (hs : List (String × String)) (n : String) : String :=
  (((hs.find? (fun p => p.1 == n)).map Prod.snd).getD "")

/-- The result value of `send` (part_003 lines 45-53): `ok`, the requested
path when reported, and the directory flag. -/
structure SendResult where
  ok : Bool
  path : Option String
  isDirectory : Option Bool
deriving DecidableEq, Repr

/-- Failure of `send`: `ctx.throw` and thrown `http-errors` values, with the
HTTP status and a message or Node error code. -/
inductive SendFail where
  | thrown (status : Nat) (msg : String)
deriving DecidableEq, Repr

/-- Does a path contain a `..` segment (the `resolve-path` escape test applied
to an already normalised path)? -/
def hasUpSegment (p : String) : Bool :=
  (splitOnChar '/' p.data).any (fun seg => seg = ['.', '.'])

/-- Modelled from the spec: the external `resolve-path` library called at
part_003 line 96 — "Resolve against the root via a path resolver that
guarantees the result is lexically contained under the root; any escape
attempt is a fatal 403."  The escape test is lexical (the request path
normalised as a relative path must not climb upward); the resolved result is
the root joined with the request path, hence contained under the root by
construction.  `serve` (part_001 lines 26-29) guarantees the root is a
nonempty resolved absolute path. -/
def resolvePathModel (root p : String) : Except SendFail String :=
  if hasUpSegment (pathNormalize ("./" ++ p)) then .error (.thrown 403 "Forbidden")
  else .ok (root ++ "/" ++ p)

/-- The hidden-segment test (part_003 lines 212-221): some component of the
path below the root starts with a dot. -/
def isHidden (root path : String) : Bool :=
  (splitOnChar '/' (path.data.drop root.data.length)).any
    (fun part => part.head? == some '.')

/-- The root as computed at part_003 line 67: the resolved, normalised root
option, or empty. -/
def sendRoot (cwd : String) (opts : SendOptions) : String :=
  if opts.root ≠ "" then pathNormalize (posixResolve cwd opts.root) else ""

/-- Steps at part_003 lines 68-86: drop the parse-root (a leading slash), then
the explicit leading-slash `replace`. -/
def sendPre (reqPath : String) : String :=
  let p1 := if jsStartsWith reqPath "/" then String.mk (reqPath.data.drop 1) else reqPath
  if jsStartsWith p1 "/" then jsReplaceFirst p1 "/" "" else p1

/-- Index-file support (part_003 line 93): append the index name on a trailing
slash. -/
def sendWithIndex (opts : SendOptions) (trailingSlash : Bool) (p : String) : String :=
  if jsTruthyStr opts.index ∧ trailingSlash then p ++ opts.index.getD "" else p

/-- Encoding negotiation (part_003 lines 104-116): serve the brotli file when
the client prefers br over identity, brotli is not disabled and the `.br` file
exists; otherwise likewise for gzip; `Content-Encoding` is set and any
`Content-Length` dropped.  Returns the (possibly suffixed) path, the encoding
extension and the updated context. -/
def encodingStep (fs : FSModel) (brotli gzip acceptBr acceptGzip : Bool)
    (path : String) (ctx : SendCtx) : String × String × SendCtx :=
  if acceptBr ∧ brotli ∧ fs.fexists (path ++ ".br") then
    let hs := objRemove (objSet ctx.headers "Content-Encoding" "br") "Content-Length"
    (path ++ ".br", ".br", { ctx with headers := hs })
  else if acceptGzip ∧ gzip ∧ fs.fexists (path ++ ".gz") then
    let hs := objRemove (objSet ctx.headers "Content-Encoding" "gzip") "Content-Length"
    (path ++ ".gz", ".gz", { ctx with headers := hs })
  else (path, "", ctx)

/-- Extension fallback (part_003 lines 118-131): try each extension in order
(prefixing a dot when missing) and take the first whose file exists. -/
def tryExtensions (fs : FSModel) (path : String) : List String → String
  | [] => path
  | e :: rest =>
    let e := if jsStartsWith e "." then e else "." ++ e
    if fs.fexists (path ++ e) then path ++ e
    else tryExtensions fs path rest

/-- Mapping of stat errors (part_003 lines 149-157): the three not-found codes
become 404, anything else 500. -/
def statErrMap (code : String) : SendFail :=
  if code = "ENOENT" ∨ code = "ENAMETOOLONG" ∨ code = "ENOTDIR" then .thrown 404 code
  else .thrown 500 code

/-- Stat and directory handling (part_003 lines 133-158): stat the path; for a
directory, append the index and restat when `format` and an index are
configured, otherwise report a browsable directory (`Sum.inr`). -/
def statStep (fs : FSModel) (format : Bool) (index : Option String) (path : String) :
    Except SendFail ((Stats × String) ⊕ String) :=
  match fs.statf path with
  | .error code => .error (statErrMap code)
  | .ok st =>
    if st.isDirectory then
      if format ∧ jsTruthyStr index then
        let path2 := path ++ "/" ++ index.getD ""
        match fs.statf path2 with
        | .error code => .error (statErrMap code)
        | .ok st2 => .ok (.inl (st2, path2))
      else .ok (.inr path)
    else .ok (.inl (st, path))

/-- Basename of a posix path (Node `basename`): the last component, ignoring
trailing separators. -/
def basenameChars (p : List Char) : List Char :=
  ((p.reverse.dropWhile (fun c => c == '/')).takeWhile (fun c => !(c == '/'))).reverse

/-- Extension of a posix path (Node `extname`): from the last dot of the
basename, empty when the dot leads the basename or is absent. -/
def extnameChars (p : List Char) : List Char :=
  let b := basenameChars p
  match splitFirst '.' b.reverse with
  | none => []
  | some (revExt, revRest) => if revRest = [] then [] else '.' :: revExt.reverse

/-- The `type` helper (part_003 lines 226-228): the extension of the file,
with the encoding suffix stripped first when one was applied. -/
def typeOf (file : String) (encodingExt : String) : String :=
  if encodingExt = "" then String.mk (extnameChars file.data)
  else
    let b := basenameChars file.data
    let b := if encodingExt.data.isSuffixOf b then b.take (b.length - encodingExt.data.length)
      else b
    String.mk (extnameChars b)

/-- An ECMAScript word character, the `\w` class: ASCII letters, digits and
underscore. -/
def isWordChar (c : Char) : Bool := c.isAlphanum || c == '_'

/-- A character the ECMAScript `.` (no dotAll, no multiline) matches: anything
but the four line terminators. -/
def jsDotChar (c : Char) : Bool :=
  !(c == Char.ofNat 10 || c == Char.ofNat 13 || c == Char.ofNat 0x2028 || c == Char.ofNat 0x2029)

/-- The longest all-digit suffix of a character list (what the lazy prefix
`[\w]*?` leaves to the greedy group `(\d*)`). -/
def maxDigitSuffix (l : List Char) : List Char :=
  (l.reverse.takeWhile Char.isDigit).reverse

/-- JavaScript `parseInt` on an all-digit string. -/
def natOfDigits (l : List Char) : Nat :=
  l.foldl (fun n c => n * 10 + (c.toNat - 48)) 0

/-- The capture of `/=(.*)$/` (part_003 line 178): the text after the first
`=` that is followed only by non-terminator characters — equivalently, the
text after the first `=` in the suffix that follows the last line
terminator. -/
def firstRegexCapture (l : List Char) : Option (List Char) :=
  let tail := (l.reverse.takeWhile jsDotChar).reverse
  (splitFirst '=' tail).map Prod.snd

/-- Range parsing (part_003 lines 176-187).  The regex
`/^[\w]*?(\d*)-(\d*)$/` matches exactly when the candidate contains a single
dash, all word characters before it and only digits after it; laziness gives
group 1 the longest digit suffix of the prefix.  An empty group 1 makes a
suffix range (last `end` bytes); an empty group 2 defaults the end to
`size - 1`. -/
def parseRangeHeader (header : String) (size : Nat) : Option (Int × Int) :=
  match firstRegexCapture header.data with
  | none => none
  | some rangeValue =>
    match splitFirst '-' rangeValue with
    | none => none
    | some (pre, suf) =>
      if suf.contains '-' then none
      else if pre.all isWordChar && suf.all Char.isDigit then
        let g1 := maxDigitSuffix pre
        let endV : Int := if suf ≠ [] then (natOfDigits suf : Int) else (size : Int) - 1
        if g1 ≠ [] then some ((natOfDigits g1 : Int), endV)
        else some ((size : Int) - endV, (size : Int) - 1)
      else none

/-- Modelled from the spec: the external `fs.createReadStream` bounds check,
part of the stream constructor called at part_003 line 194.  Node validates
the options synchronously — `start` and `end` must be nonnegative integers
with `start ≤ end` — and throws `ERR_OUT_OF_RANGE` otherwise, which lands in
the catch of the surrounding try block.  `true` means the stream is
constructed. -/
def createReadStreamOk (st en : Int) : Bool :=
  (0 ≤ st && 0 ≤ en) && st ≤ en

/-- The Range branch of `send` (part_003 lines 174-200): on a parse success,
set status 206 with `Content-Length` and `Content-Range` for the slice and
construct the slice stream; if either the parse or the stream construction
throws (unsatisfiable bounds), the catch responds 416 with
`Content-Range: bytes */size` and the whole file.  In the unsatisfiable case
the 206 status and headers had already been set when the constructor threw;
the catch overwrites all three (header writes replace in place). -/
def rangeStep (size : Nat) (header : String) (path : String) (ctx : SendCtx) : SendCtx :=
  match parseRangeHeader header size with
  | some (st, en) =>
    let hs206 := objSet (objSet ctx.headers "Content-Length" (toString (en - st + 1)))
      "Content-Range" ("bytes " ++ toString st ++ "-" ++ toString en ++ "/" ++ toString size)
    if createReadStreamOk st en then
      { ctx with status := 206, headers := hs206, body := some (path, some (st, en)) }
    else
      let hs := objSet (objSet hs206 "Content-Length" (toString size))
        "Content-Range" ("bytes */" ++ toString size)
      { ctx with status := 416, headers := hs, body := some (path, none) }
  | none =>
    let hs := objSet (objSet ctx.headers "Content-Length" (toString size))
      "Content-Range" ("bytes */" ++ toString size)
    { ctx with status := 416, headers := hs, body := some (path, none) }

/-- Headers at part_003 lines 163-164: `Content-Length` and `Accept-Ranges`. -/
def hdrBase (stats : Stats) (ctx : SendCtx) : SendCtx :=
  let hs := objSet (objSet ctx.headers "Content-Length" (toString stats.size))
    "Accept-Ranges" "bytes"
  { ctx with headers := hs }

/-- Header at part_003 line 165: `Last-Modified` from the mtime unless already
present. -/
def hdrLastModified (stats : Stats) (ctx : SendCtx) : SendCtx :=
  if respGet ctx.headers "Last-Modified" = "" then
    { ctx with headers := objSet ctx.headers "Last-Modified" stats.mtimeUTC }
  else ctx

/-- Header at part_003 lines 166-172: `Cache-Control` from maxage and
immutable unless already present. -/
def hdrCacheControl (maxage : Nat) (immutable : Bool) (ctx : SendCtx) : SendCtx :=
  if respGet ctx.headers "Cache-Control" = "" then
    let cc := "max-age=" ++ toString (maxage / 1000) ++ if immutable then ",immutable" else ""
    { ctx with headers := objSet ctx.headers "Cache-Control" cc }
  else ctx

/-- Part_003 line 173: the MIME type from the extension (ignoring the encoding
suffix) when the type is unset. -/
def hdrType (path encodingExt : String) (ctx : SendCtx) : SendCtx :=
  if ctx.ctype = "" then { ctx with ctype := typeOf path encodingExt } else ctx

/-- The streaming headers (part_003 lines 163-173), in source order. -/
def headerStep (stats : Stats) (maxage : Nat) (immutable : Bool) (path : String)
    (encodingExt : String) (ctx : SendCtx) : SendCtx :=
  hdrType path encodingExt
    (hdrCacheControl maxage immutable (hdrLastModified stats (hdrBase stats ctx)))

/-- The body branch (part_003 lines 174-204): the Range branch when a truthy
Range header is present, else `Content-Length` again and the whole file. -/
def bodyStep (stats : Stats) (path : String) (ctx : SendCtx) : SendCtx :=
  if jsTruthyStr ctx.rangeHeader then
    rangeStep stats.size (ctx.rangeHeader.getD "") path ctx
  else
    let hs := objSet ctx.headers "Content-Length" (toString stats.size)
    { ctx with headers := hs, body := some (path, none) }

/-- Embedding of `send` (part_003 lines 61-207).  `decodeFn` models
`decodeURIComponent` (`none` = decode error); `cwd` the process working
directory entering `path.resolve`.  The optional `setHeaders` callback (an
arbitrary user hook on the raw response, validated at lines 80-82 and invoked
at line 160) is outside the model; none of the verified properties concerns
it. -/
def send (fs : FSModel) (decodeFn : String → Option String) (cwd : String)
    (ctx : SendCtx) (reqPath : String) (opts : SendOptions) :
    Except SendFail (SendResult × SendCtx) :=
  let root := sendRoot cwd opts
  let trailingSlash := jsEndsWith reqPath "/"
  let p2 := sendPre reqPath
  match decodeFn p2 with
  | none => .error (.thrown 400 "failed to decode path")
  | some p3 =>
    let p4 := sendWithIndex opts trailingSlash p3
    let resolved : Except SendFail String :=
      if !opts.absolute then resolvePathModel root p4 else .ok ("/" ++ p4)
    match resolved with
    | .error e => .error e
    | .ok p5 =>
      if !opts.hidden ∧ isHidden root p5 then .ok (⟨false, none, none⟩, ctx)
      else
        match encodingStep fs opts.brotli opts.gzip ctx.acceptBr ctx.acceptGzip p5 ctx with
        | (p6, encodingExt, ctx1) =>
          let p7 := match opts.extensions with
            | some exts =>
              if (basenameChars p6.data).contains '.' then p6 else tryExtensions fs p6 exts
            | none => p6
          match statStep fs opts.format opts.index p7 with
          | .error e => .error e
          | .ok (.inr dirPath) => .ok (⟨false, some dirPath, some true⟩, ctx1)
          | .ok (.inl (stats, p8)) =>
            let ctx2 := headerStep stats opts.maxage opts.immutable p8 encodingExt ctx1
            let ctx3 := bodyStep stats p8 ctx2
            .ok (⟨true, some p8, none⟩, ctx3)

/-- Modelled from the spec: the bytes delivered by the body stream `send`
installs — `fs.createReadStream(path)` streams the whole file, and with
`{start, end}` it streams "that slice", both bounds inclusive, stopping at
end of file.  `send` only constructs a slice stream whose bounds passed the
`createReadStreamOk` validation (`0 ≤ start ≤ end`). -/
def streamedBytes (file : List Nat) : Option (Int × Int) → List Nat
  | none => file
  | some (st, en) => (file.drop st.toNat).take (en - st + 1).toNat

/-- Looking up a key that was present and overwritten by `objSet` yields the
new value. -/
theorem find?_set_mem (hs : List (String × String)) (n v : String)
    (hany : hs.any (fun p => decide (p.1 = n)) = true) :
    (hs.map (fun p => if p.1 = n then (n, v) else p)).find? (fun p => p.1 == n) =
      some (n, v) := by
  induction hs with
  | nil => simp at hany
  | cons a t ih =>
    simp only [List.any_cons, Bool.or_eq_true] at hany
    simp only [List.map_cons]
    by_cases ha : a.1 = n
    · rw [if_pos ha, List.find?_cons_of_pos _ (by simp)]
    · rw [if_neg ha, List.find?_cons_of_neg _ (by simp [ha])]
      apply ih
      rcases hany with h | h
      · exact absurd (of_decide_eq_true h) ha
      · exact h

/-- Looking up a key appended by `objSet` (it was absent) yields the new
value. -/
theorem find?_set_notmem (hs : List (String × String)) (n v : String)
    (hany : hs.any (fun p => decide (p.1 = n)) = false) :
    (hs ++ [(n, v)]).find? (fun p => p.1 == n) = some (n, v) := by
  induction hs with
  | nil => rw [List.nil_append, List.find?_cons_of_pos _ (by simp)]
  | cons a t ih =>
    have hany' := hany
    simp only [List.any_cons, Bool.or_eq_false_iff] at hany'
    rw [List.cons_append, List.find?_cons_of_neg _ (by simp [of_decide_eq_false hany'.1])]
    exact ih hany'.2

/-- Reading back the key just written by `objSet`. -/
theorem respGet_objSet (hs : List (String × String)) (n v : String) :
    respGet (objSet hs n v) n = v := by
  unfold objSet respGet
  by_cases hany : hs.any (fun p => decide (p.1 = n)) = true
  · rw [if_pos hany, find?_set_mem hs n v hany]
    rfl
  · rw [if_neg hany, find?_set_notmem hs n v (Bool.eq_false_iff.mpr hany)]
    rfl

/-- Removing one key does not change the lookup of a different key. -/
theorem respGet_objRemove (hs : List (String × String)) (n m : String)
    (h : (n == m) = false) :
    respGet (objRemove hs m) n = respGet hs n := by
  unfold objRemove respGet
  induction hs with
  | nil => rfl
  | cons a t ih =>
    by_cases ham : (a.1 == m) = true
    · have hne : ¬ (a.1 == n) = true := by
        intro hb
        rw [eq_of_beq hb] at ham
        rw [ham] at h
        cases h
      rw [List.filter_cons_of_neg (by simp [ham]), List.find?_cons_of_neg _ (by exact hne)]
      exact ih
    · rw [List.filter_cons_of_pos (by simp [ham])]
      by_cases han : (a.1 == n) = true
      · rw [List.find?_cons_of_pos _ (by exact han), List.find?_cons_of_pos _ (by exact han)]
      · rw [List.find?_cons_of_neg _ (by exact han), List.find?_cons_of_neg _ (by exact han)]
        exact ih

/-- Overwriting a present key other than `n` leaves the `n`-lookup alone. -/
theorem find?_map_set_ne (hs : List (String × String)) (m v n : String) (h : ¬ m = n) :
    (hs.map (fun p => if p.1 = m then (m, v) else p)).find? (fun p => p.1 == n) =
      hs.find? (fun p => p.1 == n) := by
  induction hs with
  | nil => rfl
  | cons a t ih =>
    simp only [List.map_cons]
    by_cases ha : a.1 = m
    · rw [if_pos ha]
      rw [List.find?_cons_of_neg _ (by simp [h]), List.find?_cons_of_neg _ (by simp [ha, h])]
      exact ih
    · rw [if_neg ha]
      by_cases han : (a.1 == n) = true
      · rw [List.find?_cons_of_pos _ (by exact han), List.find?_cons_of_pos _ (by exact han)]
      · rw [List.find?_cons_of_neg _ (by exact han), List.find?_cons_of_neg _ (by exact han)]
        exact ih

/-- Appending an entry for a key other than `n` leaves the `n`-lookup alone. -/
theorem find?_append_single_ne (hs : List (String × String)) (m v n : String)
    (h : ¬ m = n) :
    (hs ++ [(m, v)]).find? (fun p => p.1 == n) = hs.find? (fun p => p.1 == n) := by
  induction hs with
  | nil =>
    rw [List.nil_append, List.find?_cons_of_neg _ (by simp [h])]
  | cons a t ih =>
    rw [List.cons_append]
    by_cases han : (a.1 == n) = true
    · rw [List.find?_cons_of_pos _ (by exact han), List.find?_cons_of_pos _ (by exact han)]
    · rw [List.find?_cons_of_neg _ (by exact han), List.find?_cons_of_neg _ (by exact han)]
      exact ih

/-- Setting a key other than `n` does not change the reading of key `n`. -/
theorem respGet_objSet_ne (hs : List (String × String)) (m v n : String)
    (h : ¬ m = n) : respGet (objSet hs m v) n = respGet hs n := by
  unfold objSet respGet
  by_cases hany : hs.any (fun p => decide (p.1 = m)) = true
  · rw [if_pos hany, find?_map_set_ne hs m v n h]
  · rw [if_neg hany, find?_append_single_ne hs m v n h]

/-- C8: when both compressed variants exist, the client prefers br over
identity and gzip over identity, and neither option is disabled, the encoding
negotiation of `send` picks the `.br` file, sets `Content-Encoding: br` and
drops `Content-Length`; the gzip branch is not taken (the result is the brotli
one whatever the `.gz` file's state). -/
theorem encoding_br_over_gzip (fs : FSModel) (p : String) (ctx : SendCtx)
    (hbr : ctx.acceptBr = true) (hgz : ctx.acceptGzip = true)
    (hexbr : fs.fexists (p ++ ".br") = true) (hexgz : fs.fexists (p ++ ".gz") = true) :
    encodingStep fs true true ctx.acceptBr ctx.acceptGzip p ctx =
      (p ++ ".br", ".br",
        { ctx with
          headers := objRemove (objSet ctx.headers "Content-Encoding" "br") "Content-Length" }) ∧
    respGet (objRemove (objSet ctx.headers "Content-Encoding" "br") "Content-Length")
      "Content-Encoding" = "br" := by
  constructor
  · unfold encodingStep
    rw [hbr, if_pos ⟨rfl, rfl, hexbr⟩]
  · rw [respGet_objRemove _ _ _ (by decide), respGet_objSet]

/-- Concrete run of C8: with `f.br` and `f.gz` both present and both encodings
acceptable, the brotli file is served with `Content-Encoding: br`. -/
theorem encoding_br_over_gzip_witness :
    encodingStep ⟨fun q => q == "/w/f.br" || q == "/w/f.gz", fun _ => .error "ENOENT"⟩
      true true true true "/w/f" ⟨true, true, none, 404, "", [], none⟩ =
      ("/w/f.br", ".br", ⟨true, true, none, 404, "", [("Content-Encoding", "br")], none⟩) := by
  have h := (encoding_br_over_gzip
    ⟨fun q => q == "/w/f.br" || q == "/w/f.gz", fun _ => .error "ENOENT"⟩
    "/w/f" ⟨true, true, none, 404, "", [], none⟩ rfl rfl (by decide) (by decide)).1
  rw [h]
  decide

/-- Weakening a `List.all` fact along a pointwise implication. -/
theorem all_mono (p q : Char → Bool) (h : ∀ c, p c = true → q c = true)
    (l : List Char) (hl : l.all p = true) : l.all q = true := by
  rw [List.all_eq_true] at hl ⊢
  exact fun x hx => h x (hl x hx)

/-- `takeWhile` keeps a list all of whose elements satisfy the predicate. -/
theorem takeWhile_of_all (p : Char → Bool) (l : List Char) (h : l.all p = true) :
    l.takeWhile p = l := by
  induction l with
  | nil => rfl
  | cons a t ih =>
    simp only [List.all_cons, Bool.and_eq_true] at h
    simp [List.takeWhile_cons, h.1, ih h.2]

/-- Taking from the reversed list while everything satisfies the predicate is
the identity. -/
theorem revTakeWhile_of_all (p : Char → Bool) (l : List Char) (h : l.all p = true) :
    (l.reverse.takeWhile p).reverse = l := by
  rw [takeWhile_of_all p l.reverse (by simpa using h), List.reverse_reverse]

/-- `splitFirst` at the first occurrence of the separator. -/
theorem splitFirst_append (c : Char) (l1 l2 : List Char) (h : ¬ c ∈ l1) :
    splitFirst c (l1 ++ c :: l2) = some (l1, l2) := by
  induction l1 with
  | nil => simp [splitFirst]
  | cons a t ih =>
    have ha : ¬ a = c := fun e => h (by simp [e])
    have ht : ¬ c ∈ t := fun m => h (List.mem_cons_of_mem a m)
    simp [splitFirst, ha, ih ht]

/-- A list of digits contains no non-digit. -/
theorem not_mem_of_all_digit (l : List Char) (h : l.all Char.isDigit = true) (c : Char)
    (hc : c.isDigit = false) : ¬ c ∈ l := by
  intro m
  have := (List.all_eq_true.mp h) c m
  rw [hc] at this
  cases this

/-- `contains` of a non-digit over a digit list is false. -/
theorem contains_false_of_all_digit (l : List Char) (h : l.all Char.isDigit = true)
    (c : Char) (hc : c.isDigit = false) : l.contains c = false := by
  cases hb : l.elem c
  · exact hb
  · exact absurd (List.mem_of_elem_eq_true hb) (not_mem_of_all_digit l h c hc)

/-- Digits are word characters. -/
theorem digit_isWordChar (c : Char) (h : c.isDigit = true) : isWordChar c = true := by
  simp [isWordChar, Char.isAlphanum, h]

/-- Digits are not line terminators. -/
theorem digit_jsDot (c : Char) (h : c.isDigit = true) : jsDotChar c = true := by
  have hne : ∀ d : Char, d.isDigit = false → (c == d) = false := by
    intro d hd
    cases hb : c == d
    · rfl
    · rw [eq_of_beq hb, hd] at h
      cases h
  simp [jsDotChar, hne (Char.ofNat 10) (by decide), hne (Char.ofNat 13) (by decide),
    hne (Char.ofNat 0x2028) (by decide), hne (Char.ofNat 0x2029) (by decide)]

/-- The concrete characters of the header prefixes. -/
theorem bytesEq_data : ("bytes=" : String).data = ['b', 'y', 't', 'e', 's', '='] := rfl

/-- Range parsing on a well-formed bytes header: with `d1` and `d2` digit
strings (either possibly empty), the parsed pair follows the source's
defaulting — an empty end means `size - 1`, an empty start turns the end into
a last-`end`-bytes suffix range. -/
theorem parseRange_bytes (header : String) (size : Nat) (d1 d2 : List Char)
    (hdata : header.data = ("bytes=" : String).data ++ (d1 ++ '-' :: d2))
    (h1 : d1.all Char.isDigit = true) (h2 : d2.all Char.isDigit = true) :
    parseRangeHeader header size =
      (let endV : Int := if d2 ≠ [] then (natOfDigits d2 : Int) else (size : Int) - 1
       if d1 ≠ [] then some ((natOfDigits d1 : Int), endV)
       else some ((size : Int) - endV, (size : Int) - 1)) := by
  have halldot : header.data.all jsDotChar = true := by
    rw [hdata, bytesEq_data]
    simp only [List.all_append, List.all_cons, Bool.and_eq_true]
    refine ⟨by decide, all_mono _ _ digit_jsDot d1 h1, by decide,
      all_mono _ _ digit_jsDot d2 h2⟩
  have hcap : firstRegexCapture header.data = some (d1 ++ '-' :: d2) := by
    unfold firstRegexCapture
    rw [revTakeWhile_of_all _ _ halldot, hdata, bytesEq_data]
    show Option.map Prod.snd
        (splitFirst '=' (['b', 'y', 't', 'e', 's', '='] ++ (d1 ++ '-' :: d2))) =
      some (d1 ++ '-' :: d2)
    have hshape : (['b', 'y', 't', 'e', 's', '='] : List Char) ++ (d1 ++ '-' :: d2) =
        ['b', 'y', 't', 'e', 's'] ++ '=' :: (d1 ++ '-' :: d2) := rfl
    rw [hshape,
      splitFirst_append '=' ['b', 'y', 't', 'e', 's'] (d1 ++ '-' :: d2) (by decide)]
    rfl
  have hsplit : splitFirst '-' (d1 ++ '-' :: d2) = some (d1, d2) :=
    splitFirst_append '-' d1 d2 (not_mem_of_all_digit d1 h1 '-' (by decide))
  have hmem : ¬ '-' ∈ d2 := not_mem_of_all_digit d2 h2 '-' (by decide)
  have hg1 : maxDigitSuffix d1 = d1 := revTakeWhile_of_all _ _ h1
  unfold parseRangeHeader
  rw [hcap]
  simp only [hsplit]
  rw [if_neg (by simp [hmem])]
  rw [if_pos (by simp [all_mono _ _ digit_isWordChar d1 h1, h2])]
  rw [hg1]

/-- C6 as stated is false on one point: a header that parses to an
unsatisfiable range still yields 416, not 206 — `bytes=500-` on a 100-byte
file parses to start 500, end 99, but `fs.createReadStream` rejects
`start > end` and the catch responds 416 with the whole file. -/
theorem static_range_counterexample :
    parseRangeHeader "bytes=500-" 100 = some (500, 99) ∧
    (rangeStep 100 "bytes=500-" "/www/f"
      ⟨false, false, some "bytes=500-", 404, "", [], none⟩).status = 416 ∧
    ¬ (rangeStep 100 "bytes=500-" "/www/f"
      ⟨false, false, some "bytes=500-", 404, "", [], none⟩).status = 206 := by
  decide

/-- C6 amended: on a GET for an existing file of size S with a Range header,
`bytes=<start>-<end>` with satisfiable bounds (0 ≤ s ≤ e, accepted by the
stream constructor) yields 206 with `Content-Range: bytes s-e/S`,
`Content-Length: e-s+1` and a stream of the inclusive slice `[s, e]` (clipped
at end of file); a missing start makes a suffix range (`s = S-end`, `e = S-1`,
the end having already defaulted), a missing end defaults `e` to `S-1`.  A
parsed range with unsatisfiable bounds (s < 0, e < 0 or s > e) makes the
stream constructor throw into the same catch as a parse failure: in both
cases the response is 416 with `Content-Range: bytes */S`, `Content-Length: S`
and the whole file as body. -/
theorem static_range_semantics (size : Nat) (path : String) (ctx : SendCtx)
    (file : List Nat) :
    (∀ d1 d2 : List Char, d1.all Char.isDigit = true → d2.all Char.isDigit = true →
      d1 ≠ [] → d2 ≠ [] →
      parseRangeHeader ("bytes=" ++ String.mk d1 ++ "-" ++ String.mk d2) size =
        some ((natOfDigits d1 : Int), (natOfDigits d2 : Int))) ∧
    (∀ d2 : List Char, d2.all Char.isDigit = true → d2 ≠ [] →
      parseRangeHeader ("bytes=-" ++ String.mk d2) size =
        some ((size : Int) - natOfDigits d2, (size : Int) - 1)) ∧
    (∀ d1 : List Char, d1.all Char.isDigit = true → d1 ≠ [] →
      parseRangeHeader ("bytes=" ++ String.mk d1 ++ "-") size =
        some ((natOfDigits d1 : Int), (size : Int) - 1)) ∧
    (∀ header st en, parseRangeHeader header size = some (st, en) →
      createReadStreamOk st en = true →
      rangeStep size header path ctx =
        { ctx with
          status := 206
          headers := objSet (objSet ctx.headers "Content-Length" (toString (en - st + 1)))
            "Content-Range"
            ("bytes " ++ toString st ++ "-" ++ toString en ++ "/" ++ toString size)
          body := some (path, some (st, en)) } ∧
      streamedBytes file (some (st, en)) =
        (file.drop st.toNat).take (en - st + 1).toNat) ∧
    (∀ header st en, parseRangeHeader header size = some (st, en) →
      createReadStreamOk st en = false →
      (rangeStep size header path ctx).status = 416 ∧
      respGet (rangeStep size header path ctx).headers "Content-Range" =
        "bytes */" ++ toString size ∧
      respGet (rangeStep size header path ctx).headers "Content-Length" = toString size ∧
      (rangeStep size header path ctx).body = some (path, none) ∧
      streamedBytes file none = file) ∧
    (∀ header, parseRangeHeader header size = none →
      rangeStep size header path ctx =
        { ctx with
          status := 416
          headers := objSet (objSet ctx.headers "Content-Length" (toString size))
            "Content-Range" ("bytes */" ++ toString size)
          body := some (path, none) } ∧
      streamedBytes file none = file) := by
  refine ⟨?_, ?_, ?_, ?_, ?_, ?_⟩
  · intro d1 d2 h1 h2 hn1 hn2
    rw [parseRange_bytes _ size d1 d2 ?hd h1 h2]
    · simp only [if_pos hn1, if_pos hn2]
    case hd => simp [String.data_append, List.append_assoc]
  · intro d2 h2 hn2
    rw [parseRange_bytes _ size [] d2 ?hd rfl h2]
    · simp only [if_pos hn2, if_neg (by simp : ¬ (([] : List Char) ≠ []))]
    case hd => simp [String.data_append, List.append_assoc]
  · intro d1 h1 hn1
    rw [parseRange_bytes _ size d1 [] ?hd h1 rfl]
    · simp only [if_pos hn1, if_neg (by simp : ¬ (([] : List Char) ≠ []))]
    case hd => simp [String.data_append, List.append_assoc]
  · intro header st en hp hok
    unfold rangeStep
    rw [hp]
    dsimp only
    rw [if_pos hok]
    exact ⟨rfl, rfl⟩
  · intro header st en hp hok
    have heq : rangeStep size header path ctx =
        { ctx with
          status := 416
          headers := objSet (objSet (objSet (objSet ctx.headers "Content-Length"
              (toString (en - st + 1))) "Content-Range"
              ("bytes " ++ toString st ++ "-" ++ toString en ++ "/" ++ toString size))
            "Content-Length" (toString size)) "Content-Range"
            ("bytes */" ++ toString size)
          body := some (path, none) } := by
      unfold rangeStep
      rw [hp]
      dsimp only
      rw [if_neg (by simp [hok])]
    rw [heq]
    refine ⟨rfl, ?_, ?_, rfl, rfl⟩
    · exact respGet_objSet _ _ _
    · rw [respGet_objSet_ne _ _ _ _ (by decide)]
      exact respGet_objSet _ _ _
  · intro header hp
    unfold rangeStep
    rw [hp]
    exact ⟨rfl, rfl⟩

/-- Concrete run of C6 (amended): `bytes=2-5` on a size-10 file parses to the
satisfiable slice [2, 5] and produces a 206; `bytes=-150` on a 100-byte file
parses to the unsatisfiable start −50 and produces a 416. -/
theorem static_range_semantics_witness :
    parseRangeHeader "bytes=2-5" 10 = some (2, 5) ∧
    (rangeStep 10 "bytes=2-5" "/www/a.txt"
      ⟨false, false, some "bytes=2-5", 404, "", [], none⟩).status = 206 ∧
    (rangeStep 100 "bytes=-150" "/www/b.txt"
      ⟨false, false, some "bytes=-150", 404, "", [], none⟩).status = 416 := by
  have h := static_range_semantics 10 "/www/a.txt"
    ⟨false, false, some "bytes=2-5", 404, "", [], none⟩ []
  have h1 := h.1 ['2'] ['5'] (by decide) (by decide) (by decide) (by decide)
  have he : ("bytes=" ++ String.mk ['2'] ++ "-" ++ String.mk ['5']) = "bytes=2-5" := by decide
  rw [he] at h1
  have hp : parseRangeHeader "bytes=2-5" 10 = some (2, 5) := by
    rw [h1]
    decide
  have h4 := (h.2.2.2.1) "bytes=2-5" 2 5 hp (by decide)
  refine ⟨hp, ?_, ?_⟩
  · rw [h4.1]
  · have h' := static_range_semantics 100 "/www/b.txt"
      ⟨false, false, some "bytes=-150", 404, "", [], none⟩ []
    have hp2 : parseRangeHeader "bytes=-150" 100 = some (-50, 99) := by
      have hsfx := h'.2.1 ['1', '5', '0'] (by decide) (by decide)
      have he2 : ("bytes=-" ++ String.mk ['1', '5', '0']) = "bytes=-150" := by decide
      rw [he2] at hsfx
      rw [hsfx]
      decide
    have h5 := (h'.2.2.2.2.1) "bytes=-150" (-50) 99 hp2 (by decide)
    exact h5.1

/-- Appending the empty string is the identity. -/
theorem str_append_empty (s : String) : s ++ "" = s := by
  cases s with
  | mk l => exact congrArg String.mk (List.append_nil l)

/-- String concatenation is associative. -/
theorem str_append_assoc (a b c : String) : a ++ b ++ c = a ++ (b ++ c) := by
  cases a with
  | mk la =>
    cases b with
    | mk lb =>
      cases c with
      | mk lc => exact congrArg String.mk (List.append_assoc la lb lc)

/-- A successful resolve is the root joined with the request path. -/
theorem resolvePathModel_prefix (root p q : String)
    (h : resolvePathModel root p = .ok q) : ∃ s, q = root ++ "/" ++ s := by
  unfold resolvePathModel at h
  split at h
  · cases h
  · exact ⟨p, (Except.ok.inj h).symm⟩

/-- Encoding negotiation only ever appends a suffix to the path. -/
theorem encodingStep_prefix (fs : FSModel) (b g ab ag : Bool) (p : String)
    (ctx : SendCtx) : ∃ s, (encodingStep fs b g ab ag p ctx).1 = p ++ s := by
  unfold encodingStep
  split
  · exact ⟨".br", rfl⟩
  · split
    · exact ⟨".gz", rfl⟩
    · exact ⟨"", (str_append_empty p).symm⟩

/-- Encoding negotiation does not touch the body. -/
theorem encodingStep_body (fs : FSModel) (b g ab ag : Bool) (p : String)
    (ctx : SendCtx) : (encodingStep fs b g ab ag p ctx).2.2.body = ctx.body := by
  unfold encodingStep
  split
  · rfl
  · split
    · rfl
    · rfl

/-- Extension fallback only ever appends a suffix to the path. -/
theorem tryExtensions_prefix (fs : FSModel) (p : String) (exts : List String) :
    ∃ s, tryExtensions fs p exts = p ++ s := by
  induction exts with
  | nil => exact ⟨"", (str_append_empty p).symm⟩
  | cons e rest ih =>
    simp only [tryExtensions]
    split
    · split
      · exact ⟨_, rfl⟩
      · exact ih
    · split
      · exact ⟨_, rfl⟩
      · exact ih

/-- A stat that reports a streamable file only ever appends to the path (the
directory case adds the index segment). -/
theorem statStep_inl_prefix (fs : FSModel) (format : Bool) (index : Option String)
    (p : String) (st : Stats) (q : String)
    (h : statStep fs format index p = .ok (.inl (st, q))) : ∃ s, q = p ++ s := by
  unfold statStep at h
  split at h
  · cases h
  · split at h
    · split at h
      · dsimp only at h
        cases hst2 : fs.statf (p ++ "/" ++ index.getD "") with
        | error code => rw [hst2] at h; cases h
        | ok st2 =>
          rw [hst2] at h
          simp only [Except.ok.injEq, Sum.inl.injEq, Prod.mk.injEq] at h
          exact ⟨"/" ++ index.getD "", by rw [← h.2, str_append_assoc]⟩
      · simp at h
    · simp only [Except.ok.injEq, Sum.inl.injEq, Prod.mk.injEq] at h
      exact ⟨"", by rw [← h.2, str_append_empty]⟩

/-- The path streamed by the body step is exactly the path it was given. -/
theorem bodyStep_body (stats : Stats) (p : String) (ctx : SendCtx) (q : String)
    (rng : Option (Int × Int)) (h : (bodyStep stats p ctx).body = some (q, rng)) :
    q = p := by
  unfold bodyStep rangeStep at h
  split at h
  · split at h
    · dsimp only at h
      split at h
      · simp only at h
        exact (Prod.mk.injEq .. ▸ (Option.some.inj h)).1.symm
      · simp only at h
        exact (Prod.mk.injEq .. ▸ (Option.some.inj h)).1.symm
    · simp only at h
      exact (Prod.mk.injEq .. ▸ (Option.some.inj h)).1.symm
  · simp only at h
    exact (Prod.mk.injEq .. ▸ (Option.some.inj h)).1.symm

/-- None of the header writers touches the body. -/
theorem hdrType_body (p ext : String) (ctx : SendCtx) :
    (hdrType p ext ctx).body = ctx.body := by
  unfold hdrType
  split
  · rfl
  · rfl

/-- The Cache-Control writer does not touch the body. -/
theorem hdrCacheControl_body (maxage : Nat) (immutable : Bool) (ctx : SendCtx) :
    (hdrCacheControl maxage immutable ctx).body = ctx.body := by
  unfold hdrCacheControl
  split
  · rfl
  · rfl

/-- The Last-Modified writer does not touch the body. -/
theorem hdrLastModified_body (stats : Stats) (ctx : SendCtx) :
    (hdrLastModified stats ctx).body = ctx.body := by
  unfold hdrLastModified
  split
  · rfl
  · rfl

/-- The header step does not touch the body. -/
theorem headerStep_body (stats : Stats) (maxage : Nat) (immutable : Bool)
    (p ext : String) (ctx : SendCtx) :
    (headerStep stats maxage immutable p ext ctx).body = ctx.body := by
  unfold headerStep
  rw [hdrType_body, hdrCacheControl_body, hdrLastModified_body]
  rfl

/-- C2: with the absolute option not set, every file path finally opened by
the static handler (handed to the body stream) is lexically contained under
the resolved static root — it extends `root ++ "/"` — and a request path that
would escape the root fails with a 403 error instead of being opened. -/
theorem static_containment (fs : FSModel) (decodeFn : String → Option String)
    (cwd : String) (ctx : SendCtx) (reqPath : String) (opts : SendOptions)
    (habs : opts.absolute = false) (hbody : ctx.body = none) :
    (∀ res ctx' p rng, send fs decodeFn cwd ctx reqPath opts = .ok (res, ctx') →
      ctx'.body = some (p, rng) → ∃ s, p = sendRoot cwd opts ++ "/" ++ s) ∧
    (∀ p3, decodeFn (sendPre reqPath) = some p3 →
      hasUpSegment (pathNormalize ("./" ++ sendWithIndex opts (jsEndsWith reqPath "/") p3))
        = true →
      send fs decodeFn cwd ctx reqPath opts = .error (.thrown 403 "Forbidden")) := by
  constructor
  · intro res ctx' p rng hrun hb
    rw [send] at hrun
    cases hdec : decodeFn (sendPre reqPath) with
    | none => rw [hdec] at hrun; cases hrun
    | some p3 =>
      rw [hdec] at hrun
      dsimp only at hrun
      rw [habs] at hrun
      simp only [Bool.not_false, if_true] at hrun
      cases hres : resolvePathModel (sendRoot cwd opts)
          (sendWithIndex opts (jsEndsWith reqPath "/") p3) with
      | error e => rw [hres] at hrun; cases hrun
      | ok p5 =>
        rw [hres] at hrun
        dsimp only at hrun
        obtain ⟨s5, hp5⟩ := resolvePathModel_prefix _ _ _ hres
        by_cases hhid : (!opts.hidden) = true ∧ isHidden (sendRoot cwd opts) p5 = true
        · rw [if_pos hhid] at hrun
          cases hrun
          rw [hbody] at hb
          cases hb
        · rw [if_neg hhid] at hrun
          rcases henc : encodingStep fs opts.brotli opts.gzip ctx.acceptBr ctx.acceptGzip
              p5 ctx with ⟨p6, encExt, ctx1⟩
          rw [henc] at hrun
          obtain ⟨s6, hp6⟩ : ∃ s, p6 = p5 ++ s := by
            have hpre := encodingStep_prefix fs opts.brotli opts.gzip ctx.acceptBr
              ctx.acceptGzip p5 ctx
            rw [henc] at hpre
            exact hpre
          have hctx1 : ctx1.body = none := by
            have hbb := encodingStep_body fs opts.brotli opts.gzip ctx.acceptBr
              ctx.acceptGzip p5 ctx
            rw [henc] at hbb
            rw [← hbody]
            exact hbb
          dsimp only at hrun
          generalize hP7 : (match opts.extensions with
            | some exts =>
              if (basenameChars p6.data).contains '.' then p6 else tryExtensions fs p6 exts
            | none => p6) = p7 at hrun
          obtain ⟨s7, hp7⟩ : ∃ s, p7 = p6 ++ s := by
            rw [← hP7]
            cases opts.extensions with
            | none => exact ⟨"", (str_append_empty p6).symm⟩
            | some exts =>
              dsimp only
              split
              · exact ⟨"", (str_append_empty p6).symm⟩
              · exact tryExtensions_prefix fs p6 exts
          cases hstat : statStep fs opts.format opts.index p7 with
          | error e => rw [hstat] at hrun; cases hrun
          | ok v =>
            rw [hstat] at hrun
            cases v with
            | inr dirPath =>
              cases hrun
              rw [hctx1] at hb
              cases hb
            | inl pr =>
              rcases pr with ⟨stats, p8⟩
              obtain ⟨s8, hp8⟩ := statStep_inl_prefix fs opts.format opts.index p7 stats
                p8 hstat
              cases hrun
              have hq : p = p8 := by
                apply bodyStep_body stats p8 _ p rng
                exact hb
              refine ⟨s5 ++ (s6 ++ (s7 ++ s8)), ?_⟩
              rw [hq, hp8, hp7, hp6, hp5]
              rw [str_append_assoc, str_append_assoc, str_append_assoc]
  · intro p3 hdec hup
    rw [send]
    rw [hdec]
    dsimp only
    rw [habs]
    simp only [Bool.not_false, if_true]
    unfold resolvePathModel
    rw [if_pos hup]

/-- Concrete run of C2: serving `/a.txt` under root `/www` opens
`/www/a.txt`, which extends the root. -/
theorem static_containment_witness :
    ∃ s, "/www/a.txt" = sendRoot "/" { root := "/www" } ++ "/" ++ s := by
  have h := (static_containment
    ⟨fun q => q == "/www/a.txt",
     fun q => if q == "/www/a.txt" then .ok ⟨3, false, "M"⟩ else .error "ENOENT"⟩
    (fun s => some s) "/" ⟨false, false, none, 404, "", [], none⟩ "/a.txt" { root := "/www" }
    rfl rfl).1
  exact h ⟨true, some "/www/a.txt", none⟩ _ "/www/a.txt" none rfl rfl

/-! ## Reverse proxy (src/modules/router/router.ts, proxy module)

The upstream transaction is a parameter: for the WebSocket branch the outcome
of `wsforward` (bytes forwarded, or the error rejected before `open`); for the
HTTP branch a function from the headers actually sent to the upstream
response.  The scheme rewrite `http→ws` only affects the logged URL and is not
modelled. -/

/-- A parsed WHATWG URL as Node exposes it: `hostname` carries no port. -/
structure UrlModel where
  protocol : String
  hostname : String
  port : String
deriving DecidableEq, Repr

/-- Node `URL.host`: hostname plus the nonempty port. -/
def UrlModel.host (u : UrlModel) : String :=
  if u.port = "" then u.hostname else u.hostname ++ ":" ++ u.port

/-- Proxy configuration (router.ts proxy module, lines 484-502), with the
defaults applied: request filter `['host']`, response filter `['connection',
'transfer-encoding']`. -/
structure ProxyConf where
  upstream : UrlModel
  nolog : Bool := false
  websocket : Bool := false
  reqHeadersFilter : List String := ["host"]
  resHeadersFilter : List String := ["connection", "transfer-encoding"]
deriving Repr

/-- The slice of the Koa context the proxy middleware touches. -/
structure ProxyCtx where
  ws : Bool
  hasUpgrade : Bool
  handler : String
  status : Nat
  body : Option String
  bytes : Nat
  error : Option String
  log : Bool
  logs : List String
  headers : List (String × String)
  resHeaders : List (String × String)
deriving DecidableEq, Repr

/-- The upstream HTTP response as `request` resolves it (statusCode may be
absent, body fully buffered). -/
structure UpstreamResponse where
  statusCode : Option Nat
  headers : List (String × String)
  body : String
deriving DecidableEq, Repr

/-- `Util.filter` as the proxy uses it (router.ts proxy lines 543, 552): drop
pseudo-headers (names starting with a colon) and the configured filter list. -/
def filterHeaders (hs : List (String × String)) (filterList : List String) :
    List (String × String) :=
  hs.filter (fun p => !(jsStartsWith p.1 ":") && !(filterList.contains p.1))

/-- Header lookup in a JavaScript object modelled as an insertion list with
`objSet` overwrite. -/
def lookupHeader (hs : List (String × String)) (n : String) : Option String :=
  (hs.find? (fun p => p.1 == n)).map Prod.snd

/-- The headers `request` sends upstream (router.ts proxy lines 574-578
together with the filtering at line 543): the object
`{ host: url.hostname, ...filteredHeaders }` — the upstream host first, the
filtered client headers spread over it (a surviving `host` key would win, but
the default filter removed it). -/
def proxyUpstreamHeaders (conf : ProxyConf) (reqHeaders : List (String × String)) :
    List (String × String) :=
  (filterHeaders reqHeaders conf.reqHeadersFilter).foldl
    (fun acc p => objSet acc p.1 p.2) [("host", conf.upstream.hostname)]

/-- Embedding of the proxy middleware (router.ts proxy lines 498-561).
`wsResult` is the outcome of `wsforward` (bytes transferred, or rejection
before `open`); `request` maps the sent headers to the upstream response. -/
def proxyMiddleware (conf : ProxyConf) (wsResult : Except String Nat)
    (request : List (String × String) → UpstreamResponse)
    (ctx : ProxyCtx) (next : ProxyCtx → ProxyCtx) : ProxyCtx :=
  let ctx := if conf.nolog then { ctx with log := false } else ctx
  if ctx.ws ∧ ctx.hasUpgrade ∧ conf.websocket then
    match wsResult with
    | .ok bytes =>
      let ctx := { ctx with handler := "ProxyWS", status := 101, bytes := bytes }
      if ctx.log then { ctx with logs := ctx.logs ++ ["ProxiedWS"] } else ctx
    | .error err =>
      let ctx := { ctx with
        handler := "ProxyWS"
        body := some ""
        status := 200
        error := some err }
      let ctx := if ctx.log then { ctx with logs := ctx.logs ++ ["ProxyWS-Failed"] } else ctx
      next ctx
  else
    let res := request (proxyUpstreamHeaders conf ctx.headers)
    let resFiltered := filterHeaders res.headers conf.resHeadersFilter
    let ctx := { ctx with
      handler := "Proxy"
      body := some res.body
      status := res.statusCode.getD 503
      resHeaders := resFiltered.foldl
        (fun acc (p : String × String) => objSet acc p.1 p.2) ctx.resHeaders }
    let ctx := if ctx.log then { ctx with logs := ctx.logs ++ ["Proxied"] } else ctx
    next ctx

/-- C7 as stated is false on one point: after an upstream WebSocket failure the
proxy middleware does not clear the context's WebSocket flag — with `ctx.ws`
true on entry, it is still true when the chain continues. -/
theorem proxy_ws_flag_counterexample :
    ¬ ((proxyMiddleware
      { upstream := ⟨"http:", "127.0.0.1", "8080"⟩, websocket := true }
      (.error "ECONNREFUSED") (fun _ => ⟨some 200, [], ""⟩)
      ⟨true, true, "", 404, none, 0, none, false, [], [], []⟩ id).ws = false) := by
  decide

/-- C7 amended: when the upstream WebSocket fails before `open`, the proxy
middleware sets status 200 with an empty body, records the error into the
context, logs 'ProxyWS-Failed' exactly when logging is enabled, and calls the
continuation exactly once so a later handler can respond; the context's
WebSocket flag is left unchanged, not cleared. -/
theorem proxy_ws_failure_falls_through (conf : ProxyConf) (err : String)
    (request : List (String × String) → UpstreamResponse)
    (ctx : ProxyCtx) (next : ProxyCtx → ProxyCtx)
    (hws : ctx.ws = true) (hup : ctx.hasUpgrade = true) (hconf : conf.websocket = true)
    (hnolog : conf.nolog = false) :
    ∃ ctx1, proxyMiddleware conf (.error err) request ctx next = next ctx1 ∧
      ctx1.status = 200 ∧ ctx1.body = some "" ∧ ctx1.error = some err ∧
      ctx1.ws = ctx.ws ∧ ctx1.handler = "ProxyWS" ∧
      (ctx.log = true → ctx1.logs = ctx.logs ++ ["ProxyWS-Failed"]) ∧
      (ctx.log = false → ctx1.logs = ctx.logs) := by
  have hcond : ctx.ws = true ∧ ctx.hasUpgrade = true ∧ conf.websocket = true :=
    ⟨hws, hup, hconf⟩
  have hnl : (if conf.nolog = true then { ctx with log := false } else ctx) = ctx := by
    rw [if_neg (by simp [hnolog])]
  by_cases hl : ctx.log = true
  · have hrun : proxyMiddleware conf (.error err) request ctx next =
        next { ctx with
          handler := "ProxyWS"
          body := some ""
          status := 200
          error := some err
          logs := ctx.logs ++ ["ProxyWS-Failed"] } := by
      unfold proxyMiddleware
      rw [hnl, if_pos hcond]
      dsimp only
      rw [if_pos hl]
    exact ⟨_, hrun, rfl, rfl, rfl, rfl, rfl, fun _ => rfl,
      fun hf => by rw [hf] at hl; cases hl⟩
  · have hrun : proxyMiddleware conf (.error err) request ctx next =
        next { ctx with
          handler := "ProxyWS"
          body := some ""
          status := 200
          error := some err } := by
      unfold proxyMiddleware
      rw [hnl, if_pos hcond]
      dsimp only
      rw [if_neg hl]
    exact ⟨_, hrun, rfl, rfl, rfl, rfl, rfl, fun ht => absurd ht hl, fun _ => rfl⟩

/-- Concrete run of C7 (amended): a refused upstream WebSocket yields a 200
with empty body, the recorded error, and the chain continued. -/
theorem proxy_ws_failure_falls_through_witness :
    ∃ ctx1, proxyMiddleware
        { upstream := ⟨"http:", "127.0.0.1", "8080"⟩, websocket := true }
        (.error "ECONNREFUSED") (fun _ => ⟨some 200, [], ""⟩)
        ⟨true, true, "", 404, none, 0, none, false, [], [], []⟩ id = id ctx1 ∧
      ctx1.status = 200 ∧ ctx1.body = some "" ∧ ctx1.error = some "ECONNREFUSED" ∧
      ctx1.ws = true ∧ ctx1.handler = "ProxyWS" := by
  obtain ⟨ctx1, h1, h2, h3, h4, h5, h6, _, _⟩ := proxy_ws_failure_falls_through
    { upstream := ⟨"http:", "127.0.0.1", "8080"⟩, websocket := true }
    "ECONNREFUSED" (fun _ => ⟨some 200, [], ""⟩)
    ⟨true, true, "", 404, none, 0, none, false, [], [], []⟩ id rfl rfl rfl rfl
  exact ⟨ctx1, h1, h2, h3, h4, h5, h6⟩

/-- Setting a key other than `n` does not change the `n`-lookup. -/
theorem lookupHeader_objSet_ne (hs : List (String × String)) (m v n : String)
    (h : ¬ m = n) : lookupHeader (objSet hs m v) n = lookupHeader hs n := by
  unfold objSet lookupHeader
  by_cases hany : hs.any (fun p => decide (p.1 = m)) = true
  · rw [if_pos hany, find?_map_set_ne hs m v n h]
  · rw [if_neg hany, find?_append_single_ne hs m v n h]

/-- Folding `objSet` over entries none of which carries key `n` does not
change the `n`-lookup. -/
theorem lookupHeader_foldl_objSet (l : List (String × String)) (n : String)
    (h : ∀ p ∈ l, ¬ p.1 = n) (acc : List (String × String)) :
    lookupHeader (l.foldl (fun acc p => objSet acc p.1 p.2) acc) n = lookupHeader acc n := by
  induction l generalizing acc with
  | nil => rfl
  | cons a t ih =>
    rw [List.foldl_cons, ih (fun p hp => h p (List.mem_cons_of_mem a hp))]
    exact lookupHeader_objSet_ne acc a.1 a.2 n (h a (List.mem_cons_self a t))

/-- Nothing that survives the request-header filter carries a filtered name. -/
theorem filterHeaders_no_key (hs : List (String × String)) (fl : List String)
    (p : String × String) (hp : p ∈ filterHeaders hs fl) (k : String) (hk : k ∈ fl) :
    ¬ p.1 = k := by
  intro he
  unfold filterHeaders at hp
  have hpred := List.of_mem_filter hp
  simp only [Bool.and_eq_true, Bool.not_eq_true'] at hpred
  have : fl.contains p.1 = true := by
    rw [he]
    exact List.elem_eq_true_of_mem hk
  rw [this] at hpred
  cases hpred.2

/-- C9 as stated is false on one point: the host header sent upstream is
`url.hostname`, which carries no port — for upstream `http://127.0.0.1:8080`
it is `127.0.0.1`, not the full authority `127.0.0.1:8080`. -/
theorem proxy_host_header_counterexample :
    lookupHeader (proxyUpstreamHeaders
        { upstream := ⟨"http:", "127.0.0.1", "8080"⟩ }
        [("host", "www.example.com"), ("accept", "*/*")]) "host" = some "127.0.0.1" ∧
    UrlModel.host ⟨"http:", "127.0.0.1", "8080"⟩ = "127.0.0.1:8080" ∧
    ¬ lookupHeader (proxyUpstreamHeaders
        { upstream := ⟨"http:", "127.0.0.1", "8080"⟩ }
        [("host", "www.example.com"), ("accept", "*/*")]) "host" =
      some "127.0.0.1:8080" := by
  decide

/-- C9 amended: with the default request-header filter, the client's own host
header is filtered out before forwarding and the host header sent upstream is
the upstream URL's hostname (without the port); the upstream status and body
pass through to the client, a 204 upstream yielding 204 with empty body
(an absent upstream status falls back to 503). -/
theorem proxy_http_passthrough (conf : ProxyConf) (ctx : ProxyCtx)
    (request : List (String × String) → UpstreamResponse) (next : ProxyCtx → ProxyCtx)
    (wsResult : Except String Nat)
    (hfil : "host" ∈ conf.reqHeadersFilter)
    (hcond : ¬ (ctx.ws = true ∧ ctx.hasUpgrade = true ∧ conf.websocket = true))
    (hnolog : conf.nolog = false) :
    lookupHeader (proxyUpstreamHeaders conf ctx.headers) "host" =
      some conf.upstream.hostname ∧
    (∀ v, ¬ ("host", v) ∈ filterHeaders ctx.headers conf.reqHeadersFilter) ∧
    (∃ ctx1, proxyMiddleware conf wsResult request ctx next = next ctx1 ∧
      ctx1.status = (request (proxyUpstreamHeaders conf ctx.headers)).statusCode.getD 503 ∧
      ctx1.body = some (request (proxyUpstreamHeaders conf ctx.headers)).body) := by
  refine ⟨?_, ?_, ?_⟩
  · unfold proxyUpstreamHeaders
    rw [lookupHeader_foldl_objSet _ _
      (fun p hp => filterHeaders_no_key ctx.headers conf.reqHeadersFilter p hp "host" hfil)]
    rfl
  · intro v hv
    exact filterHeaders_no_key ctx.headers conf.reqHeadersFilter ("host", v) hv "host"
      hfil rfl
  · have hnl : (if conf.nolog = true then { ctx with log := false } else ctx) = ctx := by
      rw [if_neg (by simp [hnolog])]
    by_cases hl : ctx.log = true
    · have hrun : proxyMiddleware conf wsResult request ctx next =
          next { ctx with
            handler := "Proxy"
            body := some (request (proxyUpstreamHeaders conf ctx.headers)).body
            status := (request (proxyUpstreamHeaders conf ctx.headers)).statusCode.getD 503
            resHeaders := (filterHeaders (request (proxyUpstreamHeaders conf
                ctx.headers)).headers conf.resHeadersFilter).foldl
              (fun acc (p : String × String) => objSet acc p.1 p.2) ctx.resHeaders
            logs := ctx.logs ++ ["Proxied"] } := by
        unfold proxyMiddleware
        rw [hnl, if_neg hcond]
        dsimp only
        rw [if_pos hl]
      exact ⟨_, hrun, rfl, rfl⟩
    · have hrun : proxyMiddleware conf wsResult request ctx next =
          next { ctx with
            handler := "Proxy"
            body := some (request (proxyUpstreamHeaders conf ctx.headers)).body
            status := (request (proxyUpstreamHeaders conf ctx.headers)).statusCode.getD 503
            resHeaders := (filterHeaders (request (proxyUpstreamHeaders conf
                ctx.headers)).headers conf.resHeadersFilter).foldl
              (fun acc (p : String × String) => objSet acc p.1 p.2) ctx.resHeaders } := by
        unfold proxyMiddleware
        rw [hnl, if_neg hcond]
        dsimp only
        rw [if_neg hl]
      exact ⟨_, hrun, rfl, rfl⟩

/-- Concrete run of C9 (amended): upstream 204 at `http://127.0.0.1:8080`
passes through as 204 with empty body, and the host header sent upstream is
`127.0.0.1`. -/
theorem proxy_http_passthrough_witness :
    lookupHeader (proxyUpstreamHeaders
        { upstream := ⟨"http:", "127.0.0.1", "8080"⟩ }
        [("host", "www.example.com"), ("accept", "*/*")]) "host" = some "127.0.0.1" ∧
    (∃ ctx1, proxyMiddleware { upstream := ⟨"http:", "127.0.0.1", "8080"⟩ }
        (.error "unused") (fun _ => ⟨some 204, [("connection", "close")], ""⟩)
        ⟨false, false, "", 404, none, 0, none, false, [],
          [("host", "www.example.com"), ("accept", "*/*")], []⟩ id = id ctx1 ∧
      ctx1.status = 204 ∧ ctx1.body = some "") := by
  have h := proxy_http_passthrough { upstream := ⟨"http:", "127.0.0.1", "8080"⟩ }
    ⟨false, false, "", 404, none, 0, none, false, [],
      [("host", "www.example.com"), ("accept", "*/*")], []⟩
    (fun _ => ⟨some 204, [("connection", "close")], ""⟩) id (.error "unused")
    (by decide) (by simp) rfl
  obtain ⟨ctx1, h1, h2, h3⟩ := h.2.2
  exact ⟨h.1, ctx1, h1, h2, h3⟩

end Misaka
